import Mathlib

/-!
Verification of the `neuroc` axon-shrinker (`neuroc/axon_shrinker/shrink.py`)
and jitter engine (`neuroc/jitter.py`).

Shallow embedding conventions:
* 3D points and diameters are exact rationals (`ℚ`); the Python code computes
  with floats, here the same arithmetic is carried out exactly.
* A morphology (`morphio.mut.Morphology`) is a forest of sections; a section
  (`morphio.mut.Section`) is a tree node with an id, a section type, a point
  list, a parallel diameter list and child subtrees.  Mutation of sections is
  embedded as functional tree rebuilding keyed by section id, which matches
  the source provided section ids are unique (morphio guarantees this; the
  `NodupIds` hypothesis records it where a proof needs it).
* `np.linalg.norm` (used by `section_path_lengths` only to pick the
  maximum-path-length section) is an external numerical routine; it is
  abstracted as a parameter `norm3 : Vec3 → ℚ`.  All theorems quantify over
  `norm3`, so they hold in particular for the Euclidean norm.
* `np.random.normal(mean, std)` draws are embedded by the location-scale
  representation `mean + std * rng k` over an arbitrary standard-draw stream
  `rng : ℕ → ℚ` threaded through the recursion in sampling order.
* Python exceptions become an `Except PyError` result; the four domain
  exceptions of `shrink.py` are `PyError` constructors (the constructor
  `noAxonRule` stands for the exception class whose message is
  "No axon annotation").
-/

/-- A 3D point / vector, componentwise exact rationals (x, y, z). -/
abbrev Vec3 : Type := ℚ × ℚ × ℚ

/-- x component. -/
def vx (v : Vec3) : ℚ := v.1

/-- y component (`Y_INDEX = 1` in `shrink.py`). -/
def vy (v : Vec3) : ℚ := v.2.1

/-- z component. -/
def vz (v : Vec3) : ℚ := v.2.2

/-- Squared Euclidean norm of a vector (the square of `np.linalg.norm`). -/
def sqNorm (v : Vec3) : ℚ := vx v ^ 2 + vy v ^ 2 + vz v ^ 2

/-- Componentwise product, as in elementwise `np.multiply` of `(n,3)` arrays. -/
def hadamard (a v : Vec3) : Vec3 := (vx a * vx v, vy a * vy v, vz a * vz v)

/-- Cross product, used by the Rodrigues rotation formula. -/
def cross (a b : Vec3) : Vec3 :=
  (vy a * vz b - vz a * vy b,
   vz a * vx b - vx a * vz b,
   vx a * vy b - vy a * vx b)

/-- Dot product, used by the Rodrigues rotation formula. -/
def dot (a b : Vec3) : ℚ := vx a * vx b + vy a * vy b + vz a * vz b

/-- `morphio.SectionType` (only the tags the algorithms inspect). -/
inductive SectionType where
  | axon
  | basalDendrite
  | apicalDendrite
  | undefinedType
  deriving DecidableEq, Repr, Inhabited

/-- A mutable morphio section embedded as a tree node: id, type, ordered point
list, parallel diameter list, and child sections. A morphology is a
`List STree` of root sections. -/
inductive STree where
  | node (sid : ℕ) (stype : SectionType) (points : List Vec3)
      (diameters : List ℚ) (children : List STree)
  deriving Repr, Inhabited

/-- A morphology: its list of root sections. -/
abbrev Forest : Type := List STree

/-- Section id. -/
def STree.sid : STree → ℕ
  | .node s _ _ _ _ => s

/-- Section type tag. -/
def STree.stype : STree → SectionType
  | .node _ st _ _ _ => st

/-- Section points (`section.points`). -/
def STree.points : STree → List Vec3
  | .node _ _ pts _ _ => pts

/-- Section diameters (`section.diameters`). -/
def STree.diameters : STree → List ℚ
  | .node _ _ _ ds _ => ds

/-- Child sections (`section.children` / `neuron.children(section)`). -/
def STree.children : STree → Forest
  | .node _ _ _ _ cs => cs

mutual

/-- Apply `f` to every point of a section and all its descendants (the way
`morph_tool.transform` applies a transformation to a section's subtree). -/
def mapPointsTree (f : Vec3 → Vec3) : STree → STree
  | .node s st pts ds cs => .node s st (pts.map f) ds (mapPointsForest f cs)

/-- `mapPointsTree` over a list of sections. -/
def mapPointsForest (f : Vec3 → Vec3) : Forest → Forest
  | [] => []
  | t :: ts => mapPointsTree f t :: mapPointsForest f ts

end

/-- `translate(morphology, root, translation)` from `shrink.py`: add
`translation` to every point of `root` and all its descendants. -/
def translateTree (translation : Vec3) : STree → STree :=
  mapPointsTree (fun p => p + translation)

/-- `translate` applied to each tree of a forest. -/
def translateForest (translation : Vec3) : Forest → Forest :=
  mapPointsForest (fun p => p + translation)

mutual

/-- Rebuild a tree, replacing every node whose id is `sid` by `g` applied to
that node (the embedding of in-place mutation of the section found by
`neuron.section(sid)`; with unique ids exactly one node is replaced). -/
def modifyTree (sid : ℕ) (g : STree → STree) : STree → STree
  | .node s st pts ds cs =>
    if s = sid then g (.node s st pts ds cs)
    else .node s st pts ds (modifyForest sid g cs)

/-- `modifyTree` over a list of sections. -/
def modifyForest (sid : ℕ) (g : STree → STree) : Forest → Forest
  | [] => []
  | t :: ts => modifyTree sid g t :: modifyForest sid g ts

end

mutual

/-- All nodes of a section subtree in preorder (the section first, then its
descendants), matching morphio's default depth-first `iter`. -/
def nodesTree : STree → List STree
  | .node s st pts ds cs => .node s st pts ds cs :: nodesForest cs

/-- All nodes of a forest in preorder. -/
def nodesForest : Forest → List STree
  | [] => []
  | t :: ts => nodesTree t ++ nodesForest ts

end

/-- All section ids of a morphology, in preorder. -/
def allIds (m : Forest) : List ℕ := (nodesForest m).map STree.sid

/-- Section ids are pairwise distinct (a morphio invariant: every section of a
morphology has a unique id). -/
def NodupIds (m : Forest) : Prop := (allIds m).Nodup

mutual

/-- Every section of the subtree has a nonempty point list. -/
def nonemptyPtsTree : STree → Bool
  | .node _ _ pts _ cs => (!pts.isEmpty) && nonemptyPtsForest cs

/-- Every section of the forest has a nonempty point list. -/
def nonemptyPtsForest : Forest → Bool
  | [] => true
  | t :: ts => nonemptyPtsTree t && nonemptyPtsForest ts

end

mutual

/-- Tree continuity below one section: every child's first point equals this
section's last point, recursively (the data-model invariant of §3 of the
spec). -/
def contTree : STree → Bool
  | .node _ _ pts _ cs => contKids (pts.getLast?) cs

/-- Tree continuity of a list of children against their parent's last point. -/
def contKids (pLast : Option Vec3) : Forest → Bool
  | [] => true
  | c :: cs => decide (c.points.head? = pLast) && contTree c && contKids pLast cs

end

/-- Tree continuity of a whole morphology: every non-root section's first
point equals its parent's last point. -/
def contForest (m : Forest) : Bool :=
  m.all contTree

/-! ## Embedding of `neuroc/axon_shrinker/shrink.py` -/

/-- The Python exceptions that can escape the shrinking pipeline.
`noAxonRule` embeds the exception class raised when the XML annotation has no
axon entry; `valueError` embeds the generic `Exception(...)` raised when both
`heights` and `n_steps` are missing; `indexError` embeds the `IndexError` of
`np.where(...)[0][0]` when a section never crosses the plane. -/
inductive PyError where
  | noAxon
  | tooManyAxons
  | noSectionToCut (msg : String)
  | noAxonRule
  | valueError (msg : String)
  | indexError
  deriving DecidableEq, Repr

/-- `str(e)` for each exception, per the `__str__` methods in `shrink.py`. -/
def errMessage : PyError → String
  | .noAxon => "Neuron has no axon"
  | .tooManyAxons => "Neuron has more than one axon"
  | .noSectionToCut msg => msg
  | .noAxonRule => "No axon annotation"
  | .valueError msg => msg
  | .indexError => "index 0 is out of bounds"

/-- Whether the batch driver `run` catches this exception: its `except` clause
names exactly `(NoSectionToCut, NoAxon, NoAxonAnnotation)`. -/
def caught_at_batch : PyError → Bool
  | .noSectionToCut _ => true
  | .noAxon => true
  | .noAxonRule => true
  | _ => false

/-- Sum of Euclidean segment lengths of a point list:
`np.linalg.norm(np.diff(s.points, axis=0), axis=1).sum()`, with the norm
abstracted as `norm3`. -/
def secLen (norm3 : Vec3 → ℚ) (pts : List Vec3) : ℚ :=
  (List.zipWith (fun b a => norm3 (b - a)) pts.tail pts).sum

mutual

/-- For every node of the subtree `t`, in preorder, the full path of sections
from the root down to that node (`anc` are the ancestors accumulated so far).
`reversed(list(neuron.iter(node, upstream)))` is exactly the path recorded
here for `node`. -/
def pathsTree (anc : List STree) : STree → List (List STree)
  | .node s st pts ds cs =>
    (anc ++ [.node s st pts ds cs]) ::
      pathsForest (anc ++ [.node s st pts ds cs]) cs

/-- `pathsTree` over a list of sections. -/
def pathsForest (anc : List STree) : Forest → List (List STree)
  | [] => []
  | t :: ts => pathsTree anc t ++ pathsForest anc ts

end

/-- Cumulative path length from the soma for the path ending at a section:
the sum over the section and its ancestors of `secLen` (this is
`section_path_lengths(neuron, neurite)[section.id]` for the section the path
leads to). -/
def pathLen (norm3 : Vec3 → ℚ) (path : List STree) : ℚ :=
  (path.map (fun s => secLen norm3 s.points)).sum

/-- First element of the list attaining the maximal value of `f` — the
behaviour of Python's `max(..., key=...)`, which keeps the earliest maximum
in iteration (= dict insertion = preorder) order. -/
def pickMaxFirst (f : α → ℚ) : List α → Option α
  | [] => none
  | x :: xs => some ((xs.foldl (fun best y => if f best < f y then y else best) x))

/-- The walk of `get_start_cut_start_graft_sections`: the path from the axon
root to the axonal section with maximal path length from the soma
(`reversed(list(original.iter(axon_end, upstream)))`, where `axon_end` is the
first maximum of `section_path_lengths` in insertion order). -/
def main_branch (norm3 : Vec3 → ℚ) (axon : STree) : List STree :=
  (pickMaxFirst (pathLen norm3) (pathsTree [] axon)).getD []

/-- Does the section's last point lie past the plane `y` in the
`upward`-consistent sense: `upward == (section.points[-1, 1] > y)`. -/
def crossesAt (upward : Bool) (y : ℚ) (t : STree) : Bool :=
  upward == decide (vy (t.points.getLastD 0) > y)

/-- The scan loop of `get_start_cut_start_graft_sections` over the main
branch: `p` is the start-cut condition and `q` the start-graft condition; the
state is the pair of optional sections already found (the `sections` dict).
The first section satisfying `p` becomes `start_cut` (and is skipped by the
`continue`); the first later section satisfying `q` becomes `start_graft`
(and the loop `break`s). -/
def scanCG (p q : STree → Bool) (st : Option STree × Option STree) :
    List STree → Option STree × Option STree
  | [] => st
  | s :: rest =>
    match st with
    | (none, sg) => if p s then scanCG p q (some s, sg) rest else scanCG p q (none, sg) rest
    | (some sc, none) => if q s then (some sc, some s) else scanCG p q (some sc, none) rest
    | (some sc, some sg) => (some sc, some sg)

/-- The root sections of the morphology tagged axon. -/
def axonRoots (m : Forest) : Forest :=
  m.filter (fun t => t.stype == SectionType.axon)

/-- `get_start_cut_start_graft_sections(original, upward, y_start_cut,
y_start_graft)`: exactly one axon root must exist (`NoAxon` /
`TooManyAxons`); walk the main branch from the soma to the deepest axonal
section and return the first section crossing `y_start_cut` together with the
first strictly later section crossing `y_start_graft`
(`NoSectionToCut` when either is missing). -/
def get_start_cut_start_graft_sections (norm3 : Vec3 → ℚ) (m : Forest)
    (upward : Bool) (y_start_cut y_start_graft : ℚ) :
    Except PyError (STree × STree) :=
  match axonRoots m with
  | [] => .error .noAxon
  | [axon] =>
    match scanCG (crossesAt upward y_start_cut) (crossesAt upward y_start_graft)
        (none, none) (main_branch norm3 axon) with
    | (none, _) => .error (.noSectionToCut "No section to cut from")
    | (some _, none) => .error (.noSectionToCut "No section to graft from")
    | (some sc, some sg) => .ok (sc, sg)
  | _ => .error .tooManyAxons

/-- `cut_condition` of `cut_section_at_plane_coord`:
`(point[1] > y_plane) == upward` for one point. -/
def cut_condition (upward : Bool) (y_plane : ℚ) (p : Vec3) : Bool :=
  decide (vy p > y_plane) == upward

/-- `_y_interpolate(section, index1, index2, y)`: the point and diameter
interpolated between the points at `index1` and `index2`, located at the
given `y` coordinate (`frac = (y - p1[1]) / (p2[1] - p1[1])`). -/
def _y_interpolate (pts : List Vec3) (ds : List ℚ) (index1 index2 : ℕ)
    (y : ℚ) : Vec3 × ℚ :=
  let p1 := pts.getD index1 0
  let p2 := pts.getD index2 0
  let d1 := ds.getD index1 0
  let d2 := ds.getD index2 0
  let frac := (y - vy p1) / (vy p2 - vy p1)
  (p1 + frac • (p2 - p1), d1 + frac * (d2 - d1))

/-- `np.where(cut_condition)[0][0]`: the index of the first point satisfying
the predicate, `none` when there is none (an `IndexError` in the source). -/
def findCrossing (p : Vec3 → Bool) : List Vec3 → Option ℕ
  | [] => none
  | v :: vs => if p v then some 0 else (findCrossing p vs).map (· + 1)

/-- `cut_section_at_plane_coord(section, y_plane, upward, cut_before)` acting
on the section's `(points, diameters)`. `none` embeds the `IndexError` of
`np.where(cut_condition)[0][0]` when no point satisfies the condition.  A cut
index of `0` leaves the section unchanged (`if cut_index > 0` guard).
Otherwise the interpolated point/diameter at the plane replaces either the
prefix (`cut_before`) or the suffix. -/
def cut_section_at_plane_coord (pts : List Vec3) (ds : List ℚ) (y_plane : ℚ)
    (upward cut_before : Bool) : Option (List Vec3 × List ℚ) :=
  match findCrossing (cut_condition upward y_plane) pts with
  | none => none
  | some 0 => some (pts, ds)
  | some (k + 1) =>
    let nd := _y_interpolate pts ds k (k + 1) y_plane
    some
      (if cut_before then nd.1 :: pts.drop (k + 1) else pts.take (k + 1) ++ [nd.1],
       if cut_before then nd.2 :: ds.drop (k + 1) else ds.take (k + 1) ++ [nd.2])

/-- Largest section id in the morphology (used to give the appended vertical
section a fresh id, as morphio does). -/
def maxId (m : Forest) : ℕ :=
  ((nodesForest m).map STree.sid).foldl max 0

/-- `cut_and_graft(orig_filename, upward, y_start_cut, y_start_graft, height)`
with, in addition to the returned `(new_neuron, y_min_diff)`, the state of
the `original` morphology after `graft_branch` mutated it (the source keeps
it as a local and drops it; claims about its pristineness need it).

Steps, as in the source:
1. `original` and `new_neuron` are two loads of the same file: both equal `m`.
2. `get_start_cut_start_graft_sections` on `original`.
3. `cut_branch(new_neuron, ...)`: trim `start_cut` at `y_start_cut`
   (`cut_before=False`) and delete all its child subtrees.
4. `add_vertical_segment(new_neuron, start_cut, height)`: append to the
   trimmed `start_cut` a two-point vertical section from its last point `p`
   to `p + (0, height, 0)`, both ends carrying its last diameter.
5. `graft_branch(new_neuron, original, ...)`: trim `start_graft` at
   `y_start_graft` (`cut_before=True`) *in the original*, translate the
   start_graft subtree of the original so its first point meets the vertical
   section's last point, and append that subtree under the vertical section
   in `new_neuron`; the returned scalar is the y component of that
   translation. -/
def cut_and_graft_full (norm3 : Vec3 → ℚ) (m : Forest) (upward : Bool)
    (y_start_cut y_start_graft height : ℚ) :
    Except PyError (Forest × Forest × ℚ) :=
  match get_start_cut_start_graft_sections norm3 m upward y_start_cut y_start_graft with
  | .error e => .error e
  | .ok (sc, sg) =>
    match cut_section_at_plane_coord sc.points sc.diameters y_start_cut upward false with
    | none => .error .indexError
    | some (scPts, scDs) =>
      match cut_section_at_plane_coord sg.points sg.diameters y_start_graft upward true with
      | none => .error .indexError
      | some (sgPts, sgDs) =>
        let scLast := scPts.getLastD 0
        let scDiam := scDs.getLastD 0
        let vLast : Vec3 := scLast + (0, height, 0)
        let translation := vLast - sgPts.headD 0
        let sgTree := translateTree translation
          (.node sg.sid sg.stype sgPts sgDs sg.children)
        let vertical : STree :=
          .node (maxId m + 1) sc.stype [scLast, vLast] [scDiam, scDiam] [sgTree]
        let newForest := modifyForest sc.sid
          (fun t => .node t.sid t.stype scPts scDs [vertical]) m
        let origAfter := modifyForest sg.sid (fun _ => sgTree) m
        .ok (newForest, origAfter, vy translation)

/-- `cut_and_graft` as the caller sees it: the new neuron and the vertical
displacement of the graft (`y_min_diff`). -/
def cut_and_graft (norm3 : Vec3 → ℚ) (m : Forest) (upward : Bool)
    (y_start_cut y_start_graft height : ℚ) : Except PyError (Forest × ℚ) :=
  match cut_and_graft_full norm3 m upward y_start_cut y_start_graft height with
  | .error e => .error e
  | .ok (newForest, _, yDiff) => .ok (newForest, yDiff)

/-- A placement rule: the `{y_min, y_max}` bounding interval of one neurite
type, from the XML annotation sidecar. -/
structure YBounds where
  y_min : ℚ
  y_max : ℚ
  deriving DecidableEq, Repr

/-- The placement rules the shrinking pipeline reads: the dendrite entry is
assumed present (the source raises an uncaught `KeyError` otherwise); the
axon entry is optional and its absence raises the no-axon-annotation
exception. -/
structure PlacementRules where
  axon : Option YBounds
  dendrite : YBounds
  deriving DecidableEq, Repr

/-- `cut_and_graft_coordinate(rules)`: `upward` iff the dendrite interval
starts below the axon interval; the cut threshold is the dendrite's far
boundary and the graft threshold the axon's near boundary, oriented by
`upward`.  Returns `(upward, y_start_cut, y_start_graft)`. -/
def cut_and_graft_coordinate (axonRule dendriteRule : YBounds) : Bool × ℚ × ℚ :=
  let upward := dendriteRule.y_min < axonRule.y_min
  (upward,
   if upward then dendriteRule.y_max else dendriteRule.y_min,
   if upward then axonRule.y_min else axonRule.y_max)

/-- `np.linspace(a, b, n)`: `n` evenly spaced values from `a` to `b`
inclusive. -/
def linspace (a b : ℚ) (n : ℕ) : List ℚ :=
  if n = 1 then [a]
  else (List.range n).map (fun i => a + (b - a) * i / (n - 1))

/-- The per-height loop of `shrink_all_heights`: run `cut_and_graft` for each
height (negated when not `upward`), collecting the resulting neurons; the
first exception aborts the loop. -/
def processHeights (norm3 : Vec3 → ℚ) (m : Forest) (upward : Bool)
    (y_start_cut y_start_graft : ℚ) : List ℚ → Except PyError (List (Forest × ℚ))
  | [] => .ok []
  | h :: hs =>
    let h' := if !upward then -h else h
    match cut_and_graft norm3 m upward y_start_cut y_start_graft h' with
    | .error e => .error e
    | .ok r =>
      match processHeights norm3 m upward y_start_cut y_start_graft hs with
      | .error e => .error e
      | .ok rs => .ok (r :: rs)

/-- `shrink_all_heights(orig_filename, annotation_filename, output_dir,
heights, n_steps)`, with file I/O stripped: the morphology and its placement
rules are passed directly and the written outputs are returned.  Raises the
no-axon-annotation exception when the rules lack an axon entry; when no
explicit `heights` are given, `n_steps` heights are linearly spaced between 0
and the annotation gap (both missing is the generic `Exception`). -/
def shrink_all_heights (norm3 : Vec3 → ℚ) (m : Forest)
    (rules : PlacementRules) (heights : List ℚ) (n_steps : ℕ) :
    Except PyError (List (Forest × ℚ)) :=
  match rules.axon with
  | none => .error .noAxonRule
  | some axonRule =>
    let c := cut_and_graft_coordinate axonRule rules.dendrite
    let upward := c.1
    if heights.isEmpty then
      if n_steps = 0 then
        .error (.valueError "heights and n_steps arguments can not be None at the same time")
      else
        let axSide := if upward then axonRule.y_min else axonRule.y_max
        let dendSide := if upward then rules.dendrite.y_max else rules.dendrite.y_min
        processHeights norm3 m upward c.2.1 c.2.2 (linspace 0 |axSide - dendSide| n_steps)
    else
      processHeights norm3 m upward c.2.1 c.2.2 heights

/-- `run(file_dir, annotation_dir, output_dir, n_steps, heights)` with the
directory listing embedded as an explicit list of (filename, morphology,
rules) items: each item is processed by `shrink_all_heights`; the `except`
clause catches `NoSectionToCut`, `NoAxon` and the no-axon-annotation
exception, recording `(filename, str(e))` and continuing; any other exception
propagates and aborts the batch.  Returns the recorded failure summary. -/
def run (norm3 : Vec3 → ℚ) :
    List (String × Forest × PlacementRules) → (n_steps : ℕ) → (heights : List ℚ) →
    Except PyError (List (String × String))
  | [], _, _ => .ok []
  | (f, m, rules) :: rest, n_steps, heights =>
    match shrink_all_heights norm3 m rules heights n_steps with
    | .ok _ => run norm3 rest n_steps heights
    | .error e =>
      if caught_at_batch e then
        match run norm3 rest n_steps heights with
        | .error e' => .error e'
        | .ok errors => .ok ((f, errMessage e) :: errors)
      else .error e

/-! ## Embedding of `neuroc/jitter.py` -/

/-- `ScaleParameters`: the scaling factor is sampled from a Normal law with
this mean and standard deviation, restricted to one axis when `axis` is
given.  The attrs defaults are `mean=1, std=0, axis=None`. -/
structure ScaleParameters where
  mean : ℚ := 1
  std : ℚ := 0
  axis : Option (Fin 3) := none
  deriving DecidableEq, Repr

/-- The `ScaleParameters()` value with every field left at its default. -/
def defaultScaleParameters : ScaleParameters := {}

/-- `RotationParameters`: mean and standard deviation (degrees) of the
sampled rotation angle, and the number of parent points used for a leaf
section's rotation axis. -/
structure RotationParameters where
  mean_angle : ℚ := 0
  std_angle : ℚ := 0
  numberpoint : ℕ := 5
  deriving DecidableEq, Repr

/-- `_segment_vectors(section, prepend_null_vector)`: consecutive point
differences (`np.diff(section.points, axis=0)`), with `[0, 0, 0]` prepended
when requested. -/
def diffs : List Vec3 → List Vec3
  | [] => []
  | [_] => []
  | a :: b :: rest => (b - a) :: diffs (b :: rest)

/-- `_segment_vectors` with its `prepend_null_vector` flag. -/
def _segment_vectors (pts : List Vec3) (prepend_null_vector : Bool) : List Vec3 :=
  if prepend_null_vector then 0 :: diffs pts else diffs pts

/-- `_clip_minimum_scaling(scalings)` on one factor:
`np.clip(x, a_min=0.01, a_max=None)`. -/
def _clip_minimum_scaling (x : ℚ) : ℚ := max x (1 / 100)

/-- `_broadcast(scaling_factors, axis)`: each scalar factor becomes the
3-vector of per-axis factors — the same scalar on every axis when `axis` is
`None`, otherwise the scalar on that axis and 1 on the other two. -/
def _broadcast (scaling_factors : List ℚ) (axis : Option (Fin 3)) : List Vec3 :=
  match axis with
  | none => scaling_factors.map (fun f => (f, f, f))
  | some ax => scaling_factors.map (fun f =>
      (if ax = 0 then f else 1, if ax = 1 then f else 1, if ax = 2 then f else 1))

/-- Running sums of a vector list starting from accumulator `acc`
(`np.cumsum(vectors, axis=0)` is `cumsumAux 0`). -/
def cumsumAux (acc : Vec3) : List Vec3 → List Vec3
  | [] => []
  | v :: vs => (acc + v) :: cumsumAux (acc + v) vs

/-- Scale one axis of a vector by `g`, the others untouched
(`cumulative_vectors[:, axis] *= factor`). -/
def scaleAxis (ax : Fin 3) (g : ℚ) (v : Vec3) : Vec3 :=
  (if ax = 0 then g * vx v else vx v,
   if ax = 1 then g * vy v else vy v,
   if ax = 2 then g * vz v else vz v)

mutual

/-- `_recursive_scale(section, segment_scaling, section_scaling)`: children
first (post-order); then scale each segment vector by its own clipped
sampled factor, rebuild the points as cumulative sums from the first point,
apply one clipped section-level factor, translate the (already scaled)
children by the displacement of the last point, and replace the points.
`k` is the index of the next unconsumed random draw; the draw count consumed
is `len(vectors)` segment factors plus one section factor per section. -/
def scaleTree (rng : ℕ → ℚ) (segP secP : ScaleParameters) (k : ℕ) :
    STree → STree × ℕ
  | .node sid st pts ds cs =>
    let r1 := scaleKids rng segP secP k cs
    let k1 := r1.2
    let vectors := _segment_vectors pts true
    let n := vectors.length
    let scaling_factors :=
      (List.range n).map (fun i => _clip_minimum_scaling (segP.mean + segP.std * rng (k1 + i)))
    let broadcastFactors := _broadcast scaling_factors segP.axis
    let scaled := List.zipWith hadamard broadcastFactors vectors
    let cumulative := cumsumAux 0 scaled
    let g := _clip_minimum_scaling (secP.mean + secP.std * rng (k1 + n))
    let cumulative2 :=
      match secP.axis with
      | none => cumulative.map (fun v => g • v)
      | some ax => cumulative.map (scaleAxis ax g)
    let newPts := cumulative2.map (fun v => pts.headD 0 + v)
    let childTranslation := newPts.getLastD 0 - pts.getLastD 0
    (.node sid st newPts ds (translateForest childTranslation r1.1), k1 + n + 1)

/-- `_recursive_scale` over a list of sections, threading the draw index. -/
def scaleKids (rng : ℕ → ℚ) (segP secP : ScaleParameters) (k : ℕ) :
    Forest → Forest × ℕ
  | [] => ([], k)
  | t :: ts =>
    let r := scaleTree rng segP secP k t
    let r' := scaleKids rng segP secP r.2 ts
    (r.1 :: r'.1, r'.2)

end

/-- `scale_morphology(neuron, segment_scaling, section_scaling)`: apply
`_recursive_scale` to every root section. -/
def scale_morphology (rng : ℕ → ℚ) (segP secP : ScaleParameters) (m : Forest) : Forest :=
  (scaleKids rng segP secP 0 m).1

/-- The Rodrigues rotation formula for the rotation with sine `s` and cosine
`c` about the unit axis `u` (this is `Rotation.from_rotvec(theta*axis)` with
`s = sin theta`, `c = cos theta`):
`R v = c v + s (u × v) + (1 - c) (u · v) u`. -/
def rodrigues (s c : ℚ) (u v : Vec3) : Vec3 :=
  c • v + s • cross u v + ((1 - c) * dot u v) • u

/-- `rotate(section, matrix, origin)` on one point: conjugate the rotation by
the translation taking `origin` to 0. -/
def rotAbout (s c : ℚ) (u origin p : Vec3) : Vec3 :=
  origin + rodrigues s c u (p - origin)

mutual

/-- `_recursive_rotational_jitter(section, piecenumber, angle_mean,
angle_std)`: children first (post-order); root sections are never rotated;
for a non-root section an angle is sampled (degrees) and the whole subtree is
rotated about the section's first point.

Externally computed numerics are abstracted: `trig deg` stands for
`(sin(deg·π/180), cos(deg·π/180))`, and `axisOf k` for the normalized
rotation axis of the section whose draw index is `k` (the parent tangent for
a leaf, `_principal_direction` — a sklearn PCA — otherwise).  Theorems
quantify over `trig` and `axisOf`, so they cover the concrete values the
source computes. -/
def rotTree (trig : ℚ → ℚ × ℚ) (axisOf : ℕ → Vec3) (rng : ℕ → ℚ)
    (P : RotationParameters) (isRoot : Bool) (k : ℕ) : STree → STree × ℕ
  | .node sid st pts ds cs =>
    let r1 := rotKids trig axisOf rng P k cs
    if isRoot then (.node sid st pts ds r1.1, r1.2)
    else
      let deg := P.mean_angle + P.std_angle * rng r1.2
      let sc := trig deg
      (mapPointsTree (rotAbout sc.1 sc.2 (axisOf r1.2) (pts.headD 0))
          (.node sid st pts ds r1.1),
       r1.2 + 1)

/-- `_recursive_rotational_jitter` over a list of child sections (all
non-root), threading the draw index. -/
def rotKids (trig : ℚ → ℚ × ℚ) (axisOf : ℕ → Vec3) (rng : ℕ → ℚ)
    (P : RotationParameters) (k : ℕ) : Forest → Forest × ℕ
  | [] => ([], k)
  | t :: ts =>
    let r := rotTree trig axisOf rng P false k t
    let r' := rotKids trig axisOf rng P r.2 ts
    (r.1 :: r'.1, r'.2)

end

/-- `_recursive_rotational_jitter` applied to each root section in order,
threading the draw index (the loop body of `rotational_jitter`). -/
def rotRoots (trig : ℚ → ℚ × ℚ) (axisOf : ℕ → Vec3) (rng : ℕ → ℚ)
    (P : RotationParameters) (k : ℕ) : Forest → Forest × ℕ
  | [] => ([], k)
  | t :: ts =>
    let r := rotTree trig axisOf rng P true k t
    let r' := rotRoots trig axisOf rng P r.2 ts
    (r.1 :: r'.1, r'.2)

/-- `rotational_jitter(neuron, params)`: jitter every root section's subtree
by recursive rotations. -/
def rotational_jitter (trig : ℚ → ℚ × ℚ) (axisOf : ℕ → Vec3) (rng : ℕ → ℚ)
    (P : RotationParameters) (m : Forest) : Forest :=
  (rotRoots trig axisOf rng P 0 m).1

/-! ## Derived observers and spec-side predicates -/

/-- `neuron.section(sid)`: the first section with the given id, in preorder. -/
def findSection (m : Forest) (sid : ℕ) : Option STree :=
  (nodesForest m).find? (fun t => t.sid == sid)

/-- The state of the `original` morphology after `cut_and_graft` ran on it
(`none` when `cut_and_graft` raised). -/
def originalAfterGraft (norm3 : Vec3 → ℚ) (m : Forest) (upward : Bool)
    (y_start_cut y_start_graft height : ℚ) : Option Forest :=
  match cut_and_graft_full norm3 m upward y_start_cut y_start_graft height with
  | .ok r => some r.2.1
  | .error _ => none

/-- An item outcome the batch loop survives: success, or an exception named
in the `except` clause. -/
def okOrCaught {α : Type} : Except PyError α → Bool
  | .ok _ => true
  | .error e => caught_at_batch e

mutual

/-- `t'` agrees with `t` on every section outside the subtrees rooted at id
`sid`: same shape, ids, types, points and diameters, with no constraint at
and below a node whose id is `sid`. -/
def sameOutsideTree (sid : ℕ) : STree → STree → Bool
  | .node s st pts ds cs, .node s' st' pts' ds' cs' =>
    if s = sid then true
    else
      decide (s = s') && decide (st = st') && decide (pts = pts') &&
        decide (ds = ds') && sameOutsideKids sid cs cs'

/-- `sameOutsideTree` over parallel forests. -/
def sameOutsideKids (sid : ℕ) : Forest → Forest → Bool
  | [], [] => true
  | t :: ts, t' :: ts' => sameOutsideTree sid t t' && sameOutsideKids sid ts ts'
  | _, _ => false

end

mutual

/-- Every section of `t'` has, segment for segment, the segment vectors of
the corresponding section of `t` scaled by exactly `1/100` (same tree
shape). -/
def shrunkTree : STree → STree → Bool
  | .node _ _ pts _ cs, .node _ _ pts' _ cs' =>
    decide (diffs pts' = (diffs pts).map (fun v => (1 / 100 : ℚ) • v)) &&
      shrunkKids cs cs'

/-- `shrunkTree` over parallel forests. -/
def shrunkKids : Forest → Forest → Bool
  | [], [] => true
  | t :: ts, t' :: ts' => shrunkTree t t' && shrunkKids ts ts'
  | _, _ => false

end

/-- `ScaleParameters(mean=-2, std=0)`: the large-negative segment-level mean
of the clamping test. -/
def segShrinkParameters : ScaleParameters := { mean := -2, std := 0, axis := none }

/-! ## Concrete fixtures for witnesses and counterexamples -/

/-- Deepest axonal section of the worked example. -/
def sec2Ex : STree := .node 2 .axon [(0, 5, 0), (0, 6, 1)] [1, 1] []

/-- Middle axonal section of the worked example. -/
def sec1Ex : STree := .node 1 .axon [(0, 2, 0), (0, 4, 0), (0, 5, 0)] [1, 1, 1] [sec2Ex]

/-- Axon root of the worked example. -/
def sec0Ex : STree := .node 0 .axon [(0, 0, 0), (0, 1, 0), (0, 2, 0)] [1, 1, 1] [sec1Ex]

/-- Worked-example morphology: a single axon chain of three sections. -/
def mEx : Forest := [sec0Ex]

/-- The start_graft subtree after `cut_and_graft mEx true (3/2) (23/5) 103`
trimmed it at `y = 23/5` and translated it up by `999/10`. -/
def sgTreeEx : STree :=
  .node 1 .axon [(0, 209/2, 0), (0, 1049/10, 0)] [1, 1]
    [.node 2 .axon [(0, 1049/10, 0), (0, 1059/10, 1)] [1, 1] []]

/-- The new neuron produced by `cut_and_graft mEx true (3/2) (23/5) 103`. -/
def newAfterEx : Forest :=
  [.node 0 .axon [(0, 0, 0), (0, 1, 0), (0, 3/2, 0)] [1, 1, 1]
    [.node 3 .axon [(0, 3/2, 0), (0, 209/2, 0)] [1, 1] [sgTreeEx]]]

/-- The `original` morphology after that same `cut_and_graft` run mutated its
start_graft subtree. -/
def origAfterEx : Forest :=
  [.node 0 .axon [(0, 0, 0), (0, 1, 0), (0, 2, 0)] [1, 1, 1] [sgTreeEx]]

/-- Placement rules whose axon interval `[0, 10]` lies below the dendrite
interval `[100, 200]` (so `upward = false`). -/
def rulesEx : PlacementRules := { axon := some ⟨0, 10⟩, dendrite := ⟨100, 200⟩ }

/-- A morphology with two axon root sections. -/
def twoAxonsEx : Forest :=
  [.node 0 .axon [(0, 0, 0), (0, 1, 0)] [1, 1] [],
   .node 1 .axon [(0, 0, 0), (0, 1, 0)] [1, 1] []]

/-- A morphology with no axon root section. -/
def mNoAxonEx : Forest := [.node 0 .basalDendrite [(0, 0, 0), (0, 1, 0)] [1, 1] []]

/-- The two-section dendrite of the spec §8 scaling example. -/
def scEx : Forest :=
  [.node 0 .basalDendrite [(0, 0, 0), (0, 5, 0)] [1, 1]
    [.node 1 .basalDendrite [(0, 5, 0), (-5, 5, 0)] [1, 1] []]]

/-- Points of the claimed plane-cut example. -/
def ptsC3 : List Vec3 := [(0, 0, 1), (0, -5, 0), (0, -10, 1/2)]

/-- Diameters of the claimed plane-cut example. -/
def dsC3 : List ℚ := [1, 1, 2]

/-! ## Basic lemmas -/

@[simp] theorem sid_node (s : ℕ) (st : SectionType) (pts : List Vec3)
    (ds : List ℚ) (cs : Forest) : (STree.node s st pts ds cs).sid = s := rfl

@[simp] theorem stype_node (s : ℕ) (st : SectionType) (pts : List Vec3)
    (ds : List ℚ) (cs : Forest) : (STree.node s st pts ds cs).stype = st := rfl

@[simp] theorem points_node (s : ℕ) (st : SectionType) (pts : List Vec3)
    (ds : List ℚ) (cs : Forest) : (STree.node s st pts ds cs).points = pts := rfl

@[simp] theorem diameters_node (s : ℕ) (st : SectionType) (pts : List Vec3)
    (ds : List ℚ) (cs : Forest) : (STree.node s st pts ds cs).diameters = ds := rfl

@[simp] theorem children_node (s : ℕ) (st : SectionType) (pts : List Vec3)
    (ds : List ℚ) (cs : Forest) : (STree.node s st pts ds cs).children = cs := rfl

theorem head?_eq_headD {α : Type} (l : List α) (d : α) (h : l ≠ []) :
    l.head? = some (l.headD d) := by
  cases l with
  | nil => exact absurd rfl h
  | cons a l => rfl

theorem getLast?_eq_getLastD {α : Type} (l : List α) (d : α) (h : l ≠ []) :
    l.getLast? = some (l.getLastD d) := by
  rw [List.getLastD_eq_getLast?]
  cases hl : l.getLast? with
  | none => exact absurd (List.getLast?_eq_none_iff.mp hl) h
  | some a => rfl

theorem head?_take_succ {α : Type} (l : List α) (k : ℕ) :
    (l.take (k + 1)).head? = l.head? := by
  cases l <;> rfl

theorem getLast?_drop_of_lt {α : Type} (l : List α) (n : ℕ) (h : n < l.length) :
    (l.drop n).getLast? = l.getLast? := by
  conv_rhs => rw [← List.take_append_drop n l]
  rw [List.getLast?_append_of_ne_nil]
  rw [← List.length_pos, List.length_drop]
  omega

theorem mapPointsTree_points (f : Vec3 → Vec3) (t : STree) :
    (mapPointsTree f t).points = t.points.map f := by
  cases t; rfl

theorem mapPointsTree_sid (f : Vec3 → Vec3) (t : STree) :
    (mapPointsTree f t).sid = t.sid := by
  cases t; rfl

mutual

theorem mapPointsTree_id (f : Vec3 → Vec3) (hf : ∀ p, f p = p) (t : STree) :
    mapPointsTree f t = t := by
  cases t with
  | node s st pts ds cs =>
    rw [mapPointsTree, mapPointsForest_id f hf cs, List.map_congr_left fun p _ => hf p,
      List.map_id']

theorem mapPointsForest_id (f : Vec3 → Vec3) (hf : ∀ p, f p = p) (l : Forest) :
    mapPointsForest f l = l := by
  cases l with
  | nil => rfl
  | cons t ts => rw [mapPointsForest, mapPointsTree_id f hf t, mapPointsForest_id f hf ts]

end

theorem translateForest_zero (l : Forest) : translateForest 0 l = l :=
  mapPointsForest_id _ (fun p => add_zero p) l

mutual

theorem contTree_mapPoints (f : Vec3 → Vec3) (t : STree) (h : contTree t = true) :
    contTree (mapPointsTree f t) = true := by
  cases t with
  | node s st pts ds cs =>
    rw [mapPointsTree, contTree, List.getLast?_map]
    rw [contTree] at h
    exact contKids_mapPoints f _ cs h

theorem contKids_mapPoints (f : Vec3 → Vec3) (pl : Option Vec3) (l : Forest)
    (h : contKids pl l = true) : contKids (pl.map f) (mapPointsForest f l) = true := by
  cases l with
  | nil => rfl
  | cons c cs =>
    rw [contKids, Bool.and_eq_true, Bool.and_eq_true] at h
    rw [mapPointsForest, contKids, Bool.and_eq_true, Bool.and_eq_true]
    refine ⟨⟨?_, contTree_mapPoints f c h.1.2⟩, contKids_mapPoints f pl cs h.2⟩
    rw [mapPointsTree_points, List.head?_map]
    have := of_decide_eq_true h.1.1
    rw [this]
    exact decide_eq_true rfl

end

theorem cumsumAux_shift (c : Vec3) (l : List Vec3) :
    ∀ acc, (cumsumAux acc l).map (fun v => c + v) = cumsumAux (c + acc) l := by
  induction l with
  | nil => intro acc; rfl
  | cons v vs ih =>
    intro acc
    rw [cumsumAux, cumsumAux, List.map_cons, ih (acc + v), add_assoc]

theorem cumsumAux_diffs (ps : List Vec3) : ∀ a, cumsumAux a (diffs (a :: ps)) = ps := by
  induction ps with
  | nil => intro a; rfl
  | cons b rest ih =>
    intro a
    rw [diffs, cumsumAux, add_sub_cancel, ih b]

theorem diffs_cumsumAux (vs : List Vec3) :
    ∀ acc v, diffs (cumsumAux acc (v :: vs)) = vs := by
  induction vs with
  | nil => intro acc v; rfl
  | cons w r ih =>
    intro acc v
    rw [cumsumAux, cumsumAux, diffs, ← cumsumAux, ih (acc + v) w, add_sub_cancel_left]

theorem diffs_map_add (Δ : Vec3) (l : List Vec3) :
    diffs (l.map (fun p => p + Δ)) = diffs l := by
  induction l with
  | nil => rfl
  | cons a l ih =>
    cases l with
    | nil => rfl
    | cons b r =>
      have ih' : diffs ((b + Δ) :: r.map (fun p => p + Δ)) = diffs (b :: r) := by
        simpa using ih
      simp only [List.map_cons, diffs, ih', add_sub_add_right_eq_sub]

theorem diffs_map_add_left (c : Vec3) (l : List Vec3) :
    diffs (l.map (fun p => c + p)) = diffs l := by
  induction l with
  | nil => rfl
  | cons a l ih =>
    cases l with
    | nil => rfl
    | cons b r =>
      have ih' : diffs ((c + b) :: r.map (fun p => c + p)) = diffs (b :: r) := by
        simpa using ih
      simp only [List.map_cons, diffs, ih', add_sub_add_left_eq_sub]

theorem hadamard_ones (v : Vec3) : hadamard (1, 1, 1) v = v := by
  obtain ⟨a, b, c⟩ := v
  simp [hadamard, vx, vy, vz]

theorem hadamard_zero_right (a : Vec3) : hadamard a 0 = 0 := by
  obtain ⟨x, y, z⟩ := a
  simp [hadamard, vx, vy, vz]

theorem hadamard_const_smul (c : ℚ) (v : Vec3) : hadamard (c, c, c) v = c • v := by
  obtain ⟨a, b, d⟩ := v
  simp [hadamard, vx, vy, vz, Prod.smul_def, smul_eq_mul]

/-! ## Lemmas about the plane-cut primitive -/

theorem findCrossing_lt_length (p : Vec3 → Bool) (l : List Vec3) :
    ∀ k, findCrossing p l = some k → k < l.length := by
  induction l with
  | nil => intro k h; exact absurd h (by simp [findCrossing])
  | cons v vs ih =>
    intro k h
    rw [findCrossing] at h
    by_cases hv : p v
    · simp only [hv, if_true] at h
      cases h
      simp
    · simp only [hv, if_false] at h
      cases hvs : findCrossing p vs with
      | none => rw [hvs] at h; cases h
      | some k' =>
        rw [hvs, Option.map_some'] at h
        cases h
        have := ih k' hvs
        simp only [List.length_cons]
        omega

theorem findCrossing_true_at (p : Vec3 → Bool) (l : List Vec3) :
    ∀ k, findCrossing p l = some k → p (l.getD k 0) = true := by
  induction l with
  | nil => intro k h; exact absurd h (by simp [findCrossing])
  | cons v vs ih =>
    intro k h
    rw [findCrossing] at h
    by_cases hv : p v
    · simp only [hv, if_true] at h
      cases h
      simpa using hv
    · simp only [hv, if_false] at h
      cases hvs : findCrossing p vs with
      | none => rw [hvs] at h; cases h
      | some k' =>
        rw [hvs, Option.map_some'] at h
        cases h
        simpa using ih k' hvs

theorem findCrossing_false_before (p : Vec3 → Bool) (l : List Vec3) :
    ∀ k, findCrossing p l = some k → ∀ j, j < k → p (l.getD j 0) = false := by
  induction l with
  | nil => intro k h; exact absurd h (by simp [findCrossing])
  | cons v vs ih =>
    intro k h j hj
    rw [findCrossing] at h
    by_cases hv : p v
    · simp only [hv, if_true] at h
      cases h
      omega
    · simp only [hv, if_false] at h
      cases hvs : findCrossing p vs with
      | none => rw [hvs] at h; cases h
      | some k' =>
        rw [hvs, Option.map_some'] at h
        cases h
        cases j with
        | zero => simpa using hv
        | succ j' => simpa using ih k' hvs j' (by omega)

theorem findCrossing_ne_nil (p : Vec3 → Bool) (l : List Vec3) (k : ℕ)
    (h : findCrossing p l = some k) : l ≠ [] := by
  intro hl
  rw [hl] at h
  exact absurd h (by simp [findCrossing])

theorem cut_false_head (pts : List Vec3) (ds : List ℚ) (y_plane : ℚ)
    (upward : Bool) (r : List Vec3 × List ℚ)
    (h : cut_section_at_plane_coord pts ds y_plane upward false = some r) :
    r.1.head? = pts.head? := by
  rw [cut_section_at_plane_coord] at h
  cases hf : findCrossing (cut_condition upward y_plane) pts with
  | none => rw [hf] at h; cases h
  | some k =>
    rw [hf] at h
    cases k with
    | zero =>
      cases h
      rfl
    | succ i =>
      simp only [if_neg (Bool.false_ne_true), Option.some.injEq] at h
      cases h
      simp only [Bool.false_eq_true, if_false]
      rw [List.head?_append_of_ne_nil, head?_take_succ]
      rw [← List.length_pos, List.length_take]
      have := findCrossing_lt_length _ _ _ hf
      omega

theorem cut_true_last (pts : List Vec3) (ds : List ℚ) (y_plane : ℚ)
    (upward : Bool) (r : List Vec3 × List ℚ)
    (h : cut_section_at_plane_coord pts ds y_plane upward true = some r) :
    r.1.getLast? = pts.getLast? := by
  rw [cut_section_at_plane_coord] at h
  cases hf : findCrossing (cut_condition upward y_plane) pts with
  | none => rw [hf] at h; cases h
  | some k =>
    rw [hf] at h
    cases k with
    | zero =>
      cases h
      rfl
    | succ i =>
      rw [Option.some_inj] at h
      subst h
      have hlt := findCrossing_lt_length _ _ _ hf
      have hdrop : pts.drop (i + 1) ≠ [] := by
        rw [← List.length_pos, List.length_drop]
        omega
      show ((_y_interpolate pts ds i (i + 1) y_plane).1 :: pts.drop (i + 1)).getLast? =
        pts.getLast?
      rw [show (_y_interpolate pts ds i (i + 1) y_plane).1 :: pts.drop (i + 1) =
          [(_y_interpolate pts ds i (i + 1) y_plane).1] ++ pts.drop (i + 1) from rfl,
        List.getLast?_append_of_ne_nil _ hdrop, getLast?_drop_of_lt pts (i + 1) hlt]

theorem cut_some_ne_nil (pts : List Vec3) (ds : List ℚ) (y_plane : ℚ)
    (upward cut_before : Bool) (r : List Vec3 × List ℚ)
    (h : cut_section_at_plane_coord pts ds y_plane upward cut_before = some r) :
    r.1 ≠ [] := by
  rw [cut_section_at_plane_coord] at h
  cases hf : findCrossing (cut_condition upward y_plane) pts with
  | none => rw [hf] at h; cases h
  | some k =>
    rw [hf] at h
    cases k with
    | zero =>
      cases h
      exact findCrossing_ne_nil _ _ _ hf
    | succ i =>
      simp only [Option.some.injEq] at h
      cases h
      cases cut_before with
      | true => simp
      | false =>
        simp only [Bool.false_eq_true, if_false, ne_eq, List.append_eq_nil]
        intro hcon
        exact absurd hcon.2 (by simp)

/-! ## Claim C3 — the worked plane-cut example -/

@[simp] theorem vy_add (a b : Vec3) : vy (a + b) = vy a + vy b := rfl

@[simp] theorem vy_sub (a b : Vec3) : vy (a - b) = vy a - vy b := rfl

@[simp] theorem vy_smul (c : ℚ) (v : Vec3) : vy (c • v) = c * vy v := rfl

unseal Rat.add Rat.mul Rat.sub Rat.inv in
/-- C3, counterexample: cutting points `[[0,0,1],[0,-5,0],[0,-10,0.5]]` with
diameters `[1,1,2]` at `y_plane = -2.5`, `upward = false`, `cut_before =
false` does **not** yield the claimed points `[[0,0,1],[0,-2.5,0.375]]` and
diameters `[1,1.625]`. -/
theorem cut_example_claimed_values_false :
    cut_section_at_plane_coord ptsC3 dsC3 (-5/2) false false ≠
      some ([(0, 0, 1), (0, -5/2, 3/8)], [1, 13/8]) := by
  decide

unseal Rat.add Rat.mul Rat.sub Rat.inv in
/-- C3, amended: with those inputs the crossing is at index 1, the
interpolation fraction is `(-2.5 - 0) / (-5 - 0) = 1/2`, and the cut yields
exactly two points `[[0,0,1],[0,-2.5,0.5]]` with diameters `[1,1]` — the new
point and diameter are the linear blends at that same fractional distance. -/
theorem cut_example_corrected :
    cut_section_at_plane_coord ptsC3 dsC3 (-5/2) false false =
      some ([(0, 0, 1), (0, -5/2, 1/2)], [1, 1]) := by
  decide

/-! ## Claim C4 — specification of the plane-cut primitive -/

theorem cut_condition_y_ne (upward : Bool) (y : ℚ) (p q : Vec3)
    (hp : cut_condition upward y p = false) (hq : cut_condition upward y q = true) :
    vy q - vy p ≠ 0 := by
  rw [cut_condition] at hp hq
  cases hdp : decide (vy p > y) with
  | false =>
    cases hdq : decide (vy q > y) with
    | false =>
      rw [hdp] at hp
      rw [hdq] at hq
      rw [hq] at hp
      exact Bool.noConfusion hp
    | true =>
      have h1 : ¬(vy p > y) := of_decide_eq_false hdp
      have h2 : vy q > y := of_decide_eq_true hdq
      exact sub_ne_zero_of_ne (ne_of_gt (lt_of_le_of_lt (le_of_not_lt h1) h2))
  | true =>
    cases hdq : decide (vy q > y) with
    | false =>
      have h1 : vy p > y := of_decide_eq_true hdp
      have h2 : ¬(vy q > y) := of_decide_eq_false hdq
      exact sub_ne_zero_of_ne (ne_of_lt (lt_of_le_of_lt (le_of_not_lt h2) h1))
    | true =>
      rw [hdp] at hp
      rw [hdq] at hq
      rw [hq] at hp
      exact Bool.noConfusion hp

/-- C4: for every section with a crossing, `cut_section_at_plane_coord` finds
the crossing index as the first point index where `(point_y > y_plane) ==
upward` (no earlier index satisfies it); if that index is 0 the section is
returned unchanged (silent no-op); otherwise a new point and diameter are
interpolated between the points at indices crossing-1 and crossing, the new
point lies exactly at the plane coordinate (`vy = y_plane`), and the
sequences become `[new] ++ points[crossing:]` when `cut_before` and
`points[:crossing] ++ [new]` otherwise. -/
theorem cut_section_at_plane_coord_spec (pts : List Vec3) (ds : List ℚ)
    (y_plane : ℚ) (upward cut_before : Bool) (k : ℕ)
    (hk : findCrossing (cut_condition upward y_plane) pts = some k) :
    (∀ j, j < k → cut_condition upward y_plane (pts.getD j 0) = false) ∧
    cut_condition upward y_plane (pts.getD k 0) = true ∧
    (k = 0 → cut_section_at_plane_coord pts ds y_plane upward cut_before = some (pts, ds)) ∧
    (∀ i, k = i + 1 →
      vy (_y_interpolate pts ds i (i + 1) y_plane).1 = y_plane ∧
      cut_section_at_plane_coord pts ds y_plane upward cut_before =
        some
          (if cut_before then (_y_interpolate pts ds i (i + 1) y_plane).1 :: pts.drop (i + 1)
            else pts.take (i + 1) ++ [(_y_interpolate pts ds i (i + 1) y_plane).1],
           if cut_before then (_y_interpolate pts ds i (i + 1) y_plane).2 :: ds.drop (i + 1)
            else ds.take (i + 1) ++ [(_y_interpolate pts ds i (i + 1) y_plane).2])) := by
  refine ⟨findCrossing_false_before _ _ _ hk, findCrossing_true_at _ _ _ hk, ?_, ?_⟩
  · intro h0
    subst h0
    rw [cut_section_at_plane_coord, hk]
  · intro i hi
    subst hi
    constructor
    · have hT := findCrossing_true_at _ _ _ hk
      have hF := findCrossing_false_before _ _ _ hk i (Nat.lt_succ_self i)
      have hne := cut_condition_y_ne upward y_plane _ _ hF hT
      simp only [_y_interpolate, vy_add, vy_smul, vy_sub]
      rw [div_mul_cancel₀ _ hne]
      ring
    · rw [cut_section_at_plane_coord, hk]

unseal Rat.add Rat.mul Rat.sub Rat.inv in
/-- C4, witness at the concrete inputs of the plane-cut example (crossing
index 1): no earlier index crosses, the interpolated point sits at the plane,
and the resulting sequences are the prefix plus the interpolated point. -/
theorem cut_section_at_plane_coord_spec_witness :
    cut_condition false (-5/2) ((0 : ℚ), (0 : ℚ), (1 : ℚ)) = false ∧
    vy (_y_interpolate ptsC3 dsC3 0 1 (-5/2)).1 = -5/2 ∧
    cut_section_at_plane_coord ptsC3 dsC3 (-5/2) false false =
      some (ptsC3.take 1 ++ [(_y_interpolate ptsC3 dsC3 0 1 (-5/2)).1],
            dsC3.take 1 ++ [(_y_interpolate ptsC3 dsC3 0 1 (-5/2)).2]) := by
  have h := cut_section_at_plane_coord_spec ptsC3 dsC3 (-5/2) false false 1 (by decide)
  exact ⟨h.1 0 Nat.one_pos, (h.2.2.2 0 rfl).1, (h.2.2.2 0 rfl).2⟩

/-! ## Claim C9 — determinism of cut-and-graft -/

/-- C9: `cut_and_graft` is deterministic — two runs on equal inputs give
equal results.  In the embedding this is visible in the type of
`cut_and_graft` itself: unlike `scaleTree`/`rotTree` it takes no random draw
stream, so its output depends on nothing but the listed inputs. -/
theorem cut_and_graft_deterministic (norm3 : Vec3 → ℚ) (m m' : Forest)
    (upward : Bool) (y_start_cut y_start_graft height : ℚ) (hm : m' = m) :
    cut_and_graft norm3 m' upward y_start_cut y_start_graft height =
      cut_and_graft norm3 m upward y_start_cut y_start_graft height := by
  rw [hm]

/-- C9, witness: two runs on the worked example agree. -/
theorem cut_and_graft_deterministic_witness :
    cut_and_graft sqNorm mEx true (3/2) (23/5) 103 =
      cut_and_graft sqNorm mEx true (3/2) (23/5) 103 :=
  cut_and_graft_deterministic sqNorm mEx mEx true (3/2) (23/5) 103 rfl

/-! ## Claim C5 — locating the cut and graft sections -/

theorem scanCG_all_false (p q : STree → Bool) (l : List STree) (st2 : Option STree)
    (h : ∀ s ∈ l, p s = false) : scanCG p q (none, st2) l = (none, st2) := by
  induction l with
  | nil => rfl
  | cons s rest ih =>
    rw [scanCG, h s (List.mem_cons_self s rest)]
    simp only [Bool.false_eq_true, if_false]
    exact ih fun x hx => h x (List.mem_cons_of_mem s hx)

theorem scanCG_phase2 (p q : STree → Bool) (sc : STree) (l : List STree) :
    scanCG p q (some sc, none) l = (some sc, l.find? q) := by
  induction l with
  | nil => rfl
  | cons s rest ih =>
    cases hq : q s with
    | true => simp [scanCG, List.find?, hq]
    | false => simp [scanCG, List.find?, hq, ih]

theorem scanCG_split (p q : STree → Bool) (l₁ : List STree) (sc : STree)
    (l₂ : List STree) (h1 : ∀ x ∈ l₁, p x = false) (hsc : p sc = true) :
    scanCG p q (none, none) (l₁ ++ sc :: l₂) = (some sc, l₂.find? q) := by
  induction l₁ with
  | nil =>
    rw [List.nil_append, scanCG, hsc]
    simp only [if_true]
    exact scanCG_phase2 p q sc l₂
  | cons x xs ih =>
    rw [List.cons_append, scanCG, h1 x (List.mem_cons_self x xs)]
    simp only [Bool.false_eq_true, if_false]
    exact ih fun y hy => h1 y (List.mem_cons_of_mem x hy)

/-- C5: `get_start_cut_start_graft_sections` raises `NoAxon` iff there are
zero axon roots and `TooManyAxons` iff there is more than one; with exactly
one axon root, walking the main branch (root to maximum-path-length anchor)
in order, the returned start_cut is the first section whose last point
crosses `y_start_cut` in the `upward`-consistent sense and start_graft is the
first section strictly after it crossing `y_start_graft`; when either is
missing it raises `NoSectionToCut` with a message naming the failing side. -/
theorem get_start_cut_start_graft_sections_spec (norm3 : Vec3 → ℚ) (m : Forest)
    (upward : Bool) (y_start_cut y_start_graft : ℚ) :
    (get_start_cut_start_graft_sections norm3 m upward y_start_cut y_start_graft =
        .error .noAxon ↔ axonRoots m = []) ∧
    (get_start_cut_start_graft_sections norm3 m upward y_start_cut y_start_graft =
        .error .tooManyAxons ↔ 2 ≤ (axonRoots m).length) ∧
    (∀ a, axonRoots m = [a] →
      (((main_branch norm3 a).find? (crossesAt upward y_start_cut) = none →
        get_start_cut_start_graft_sections norm3 m upward y_start_cut y_start_graft =
          .error (.noSectionToCut "No section to cut from")) ∧
      (∀ l₁ sc l₂, main_branch norm3 a = l₁ ++ sc :: l₂ →
        (∀ x ∈ l₁, crossesAt upward y_start_cut x = false) →
        crossesAt upward y_start_cut sc = true →
        ((l₂.find? (crossesAt upward y_start_graft) = none →
          get_start_cut_start_graft_sections norm3 m upward y_start_cut y_start_graft =
            .error (.noSectionToCut "No section to graft from")) ∧
        (∀ sg, l₂.find? (crossesAt upward y_start_graft) = some sg →
          get_start_cut_start_graft_sections norm3 m upward y_start_cut y_start_graft =
            .ok (sc, sg)))))) := by
  cases hax : axonRoots m with
  | nil =>
    refine ⟨?_, ?_, ?_⟩
    · simp [get_start_cut_start_graft_sections, hax]
    · constructor
      · intro h
        simp [get_start_cut_start_graft_sections, hax] at h
      · intro h
        simp at h
    · intro a ha
      cases ha
  | cons a rest =>
    cases rest with
    | nil =>
      refine ⟨?_, ?_, ?_⟩
      · constructor
        · intro h
          rcases hscan : scanCG (crossesAt upward y_start_cut)
              (crossesAt upward y_start_graft) (none, none) (main_branch norm3 a)
            with ⟨o1, o2⟩
          cases o1 <;> cases o2 <;>
            simp [get_start_cut_start_graft_sections, hax, hscan] at h
        · intro h
          cases h
      · constructor
        · intro h
          rcases hscan : scanCG (crossesAt upward y_start_cut)
              (crossesAt upward y_start_graft) (none, none) (main_branch norm3 a)
            with ⟨o1, o2⟩
          cases o1 <;> cases o2 <;>
            simp [get_start_cut_start_graft_sections, hax, hscan] at h
        · intro h
          simp at h
      · intro a' ha'
        rw [List.cons.injEq] at ha'
        obtain ⟨rfl, -⟩ := ha'
        constructor
        · intro hfind
          have hall : ∀ x ∈ main_branch norm3 a,
              crossesAt upward y_start_cut x = false :=
            fun x hx => Bool.eq_false_iff.mpr (List.find?_eq_none.mp hfind x hx)
          have hscan := scanCG_all_false (crossesAt upward y_start_cut)
            (crossesAt upward y_start_graft) (main_branch norm3 a) none hall
          simp [get_start_cut_start_graft_sections, hax, hscan]
        · intro l₁ sc l₂ hsplit hpre hsc
          have hscan := scanCG_split (crossesAt upward y_start_cut)
            (crossesAt upward y_start_graft) l₁ sc l₂ hpre hsc
          constructor
          · intro hnone
            rw [hnone] at hscan
            simp [get_start_cut_start_graft_sections, hax, hsplit, hscan]
          · intro sg hsg
            rw [hsg] at hscan
            simp [get_start_cut_start_graft_sections, hax, hsplit, hscan]
    | cons b rest2 =>
      refine ⟨?_, ?_, ?_⟩
      · constructor
        · intro h
          simp [get_start_cut_start_graft_sections, hax] at h
        · intro h
          cases h
      · constructor
        · intro _
          simp
        · intro _
          simp [get_start_cut_start_graft_sections, hax]
      · intro a' ha'
        simp at ha'

unseal Rat.add Rat.mul Rat.sub Rat.inv in
/-- C5, witness: on the worked example the axon root is the single axon, and
the walk picks the root as start_cut (last point `y = 2 > 3/2`) and the
middle section as start_graft (last point `y = 5 > 23/5`). -/
theorem get_start_cut_start_graft_sections_spec_witness :
    get_start_cut_start_graft_sections sqNorm mEx true (3/2) (23/5) =
      .ok (sec0Ex, sec1Ex) :=
  (((get_start_cut_start_graft_sections_spec sqNorm mEx true (3/2) (23/5)).2.2 sec0Ex
      rfl).2 [] sec0Ex [sec1Ex, sec2Ex] rfl (by simp) rfl).2 sec1Ex rfl

/-! ## Lemmas about the scaling pass -/

@[simp] theorem defaultScaleParameters_mean : defaultScaleParameters.mean = 1 := rfl

@[simp] theorem defaultScaleParameters_std : defaultScaleParameters.std = 0 := rfl

@[simp] theorem defaultScaleParameters_axis : defaultScaleParameters.axis = none := rfl

@[simp] theorem segShrinkParameters_mean : segShrinkParameters.mean = -2 := rfl

@[simp] theorem segShrinkParameters_std : segShrinkParameters.std = 0 := rfl

@[simp] theorem segShrinkParameters_axis : segShrinkParameters.axis = none := rfl

theorem clip_one : _clip_minimum_scaling 1 = 1 := by
  rw [_clip_minimum_scaling]
  exact max_eq_left (by norm_num)

theorem clip_neg_two : _clip_minimum_scaling (-2) = 1 / 100 := by
  rw [_clip_minimum_scaling]
  exact max_eq_right (by norm_num)

theorem clip_one_zero (x : ℚ) : _clip_minimum_scaling (1 + 0 * x) = 1 := by
  rw [zero_mul, add_zero, clip_one]

theorem map_range_const (f : ℕ → ℚ) (n : ℕ) (c : ℚ) (hf : ∀ i, f i = c) :
    (List.range n).map f = List.replicate n c := by
  have h1 : ∀ b ∈ (List.range n).map f, b = c := by
    intro b hb
    obtain ⟨i, -, rfl⟩ := List.mem_map.mp hb
    exact hf i
  have h2 := List.eq_replicate_of_mem h1
  rwa [List.length_map, List.length_range] at h2

theorem factors_const (rng : ℕ → ℚ) (mean : ℚ) (k1 n : ℕ) :
    (List.range n).map (fun i => _clip_minimum_scaling (mean + 0 * rng (k1 + i))) =
      List.replicate n (_clip_minimum_scaling mean) := by
  apply map_range_const
  intro i
  rw [zero_mul, add_zero]

theorem broadcast_none_replicate (n : ℕ) (c : ℚ) :
    _broadcast (List.replicate n c) none = List.replicate n (c, c, c) := by
  rw [_broadcast, List.map_replicate]

theorem zipWith_hadamard_replicate (c : ℚ) (vs : List Vec3) :
    List.zipWith hadamard (List.replicate vs.length (c, c, c)) vs =
      vs.map (fun v => c • v) := by
  induction vs with
  | nil => rfl
  | cons v vs ih =>
    rw [List.length_cons, List.replicate_succ, List.zipWith_cons_cons, ih,
      hadamard_const_smul, List.map_cons]

theorem map_one_smul (l : List Vec3) : l.map (fun v => (1 : ℚ) • v) = l := by
  rw [List.map_congr_left fun v _ => one_smul ℚ v, List.map_id']

theorem scaled_default (rng : ℕ → ℚ) (k1 : ℕ) (vs : List Vec3) :
    List.zipWith hadamard
      (_broadcast ((List.range vs.length).map
        (fun i => _clip_minimum_scaling ((1 : ℚ) + 0 * rng (k1 + i)))) none) vs = vs := by
  rw [factors_const rng 1 k1 vs.length, clip_one, broadcast_none_replicate,
    zipWith_hadamard_replicate, map_one_smul]

theorem scaled_shrink (rng : ℕ → ℚ) (k1 : ℕ) (vs : List Vec3) :
    List.zipWith hadamard
      (_broadcast ((List.range vs.length).map
        (fun i => _clip_minimum_scaling ((-2 : ℚ) + 0 * rng (k1 + i)))) none) vs =
      vs.map (fun v => (1 / 100 : ℚ) • v) := by
  rw [factors_const rng (-2) k1 vs.length, clip_neg_two, broadcast_none_replicate,
    zipWith_hadamard_replicate]

theorem segment_vectors_true (pts : List Vec3) :
    _segment_vectors pts true = 0 :: diffs pts := rfl

theorem newPts_id (p : Vec3) (rest : List Vec3) :
    (cumsumAux 0 (_segment_vectors (p :: rest) true)).map
      (fun v => (p :: rest).headD 0 + v) = p :: rest := by
  show (cumsumAux 0 (0 :: diffs (p :: rest))).map (fun v => p + v) = p :: rest
  rw [cumsumAux, List.map_cons, cumsumAux_shift, add_zero, add_zero, cumsumAux_diffs]

mutual

theorem scaleTree_default_id (rng : ℕ → ℚ) (k : ℕ) (t : STree)
    (h : nonemptyPtsTree t = true) :
    (scaleTree rng defaultScaleParameters defaultScaleParameters k t).1 = t := by
  cases t with
  | node s st pts ds cs =>
    rw [nonemptyPtsTree, Bool.and_eq_true] at h
    obtain ⟨hp, hcs⟩ := h
    cases pts with
    | nil => simp at hp
    | cons p rest =>
      simp only [scaleTree, defaultScaleParameters_mean, defaultScaleParameters_std,
        defaultScaleParameters_axis]
      rw [scaled_default, clip_one_zero, map_one_smul, newPts_id,
        scaleKids_default_id rng k cs hcs, sub_self, translateForest_zero]

theorem scaleKids_default_id (rng : ℕ → ℚ) (k : ℕ) (l : Forest)
    (h : nonemptyPtsForest l = true) :
    (scaleKids rng defaultScaleParameters defaultScaleParameters k l).1 = l := by
  cases l with
  | nil => rfl
  | cons t ts =>
    rw [nonemptyPtsForest, Bool.and_eq_true] at h
    rw [scaleKids]
    simp only
    rw [scaleTree_default_id rng k t h.1,
      scaleKids_default_id rng (scaleTree rng defaultScaleParameters
        defaultScaleParameters k t).2 ts h.2]

end

/-! ## Claim C10 — default scaling parameters are the identity -/

/-- C10: `scale_morphology` with both parameter sets left at their attrs
defaults (`mean=1, std=0, axis=None`) leaves every section's points and
diameters unchanged, for every draw stream. -/
theorem scale_morphology_default_identity (rng : ℕ → ℚ) (m : Forest)
    (h : nonemptyPtsForest m = true) :
    scale_morphology rng defaultScaleParameters defaultScaleParameters m = m := by
  rw [scale_morphology]
  exact scaleKids_default_id rng 0 m h

/-- C10, witness: the two-section example morphology is returned unchanged. -/
theorem scale_morphology_default_identity_witness :
    scale_morphology (fun _ => 0) defaultScaleParameters defaultScaleParameters scEx =
      scEx :=
  scale_morphology_default_identity (fun _ => 0) scEx (by decide)

/-! ## Claim C7 — the minimum scaling clamp -/

mutual

theorem shrunkTree_translate (d : Vec3) (t t' : STree)
    (h : shrunkTree t t' = true) : shrunkTree t (translateTree d t') = true := by
  cases t with
  | node s st pts ds cs =>
    cases t' with
    | node s' st' pts' ds' cs' =>
      rw [shrunkTree, Bool.and_eq_true] at h
      rw [translateTree, mapPointsTree, shrunkTree, Bool.and_eq_true]
      refine ⟨?_, shrunkKids_translate d cs cs' h.2⟩
      rw [diffs_map_add]
      exact h.1

theorem shrunkKids_translate (d : Vec3) (l l' : Forest)
    (h : shrunkKids l l' = true) : shrunkKids l (translateForest d l') = true := by
  cases l with
  | nil =>
    cases l' with
    | nil => rfl
    | cons t' ts' => exact Bool.noConfusion h
  | cons t ts =>
    cases l' with
    | nil => exact Bool.noConfusion h
    | cons t' ts' =>
      rw [shrunkKids, Bool.and_eq_true] at h
      rw [translateForest, mapPointsForest, shrunkKids, Bool.and_eq_true]
      exact ⟨shrunkTree_translate d t t' h.1, shrunkKids_translate d ts ts' h.2⟩

end

theorem diffs_shrunk_points (p0 : Vec3) (pts : List Vec3) :
    diffs ((((cumsumAux 0 ((_segment_vectors pts true).map
        (fun v => (1 / 100 : ℚ) • v))).map (fun v => (1 : ℚ) • v)).map
        (fun v => p0 + v))) =
      (diffs pts).map (fun v => (1 / 100 : ℚ) • v) := by
  rw [map_one_smul, diffs_map_add_left, segment_vectors_true, List.map_cons,
    smul_zero, diffs_cumsumAux]

mutual

theorem scaleTree_shrunk (rng : ℕ → ℚ) (k : ℕ) (t : STree) :
    shrunkTree t ((scaleTree rng segShrinkParameters defaultScaleParameters k t).1) =
      true := by
  cases t with
  | node s st pts ds cs =>
    simp only [scaleTree, segShrinkParameters_mean, segShrinkParameters_std,
      segShrinkParameters_axis, defaultScaleParameters_mean, defaultScaleParameters_std,
      defaultScaleParameters_axis]
    rw [scaled_shrink, clip_one_zero]
    rw [shrunkTree, Bool.and_eq_true]
    constructor
    · rw [diffs_shrunk_points]
      simp
    · exact shrunkKids_translate _ cs _ (scaleKids_shrunk rng k cs)

theorem scaleKids_shrunk (rng : ℕ → ℚ) (k : ℕ) (l : Forest) :
    shrunkKids l ((scaleKids rng segShrinkParameters defaultScaleParameters k l).1) =
      true := by
  cases l with
  | nil => rfl
  | cons t ts =>
    rw [scaleKids]
    simp only
    rw [shrunkKids, Bool.and_eq_true]
    exact ⟨scaleTree_shrunk rng k t, scaleKids_shrunk rng _ ts⟩

end

/-- C7: every sampled scale factor below `0.01` is clamped to exactly `0.01`
(`_clip_minimum_scaling`); scaling a vector by `1/100` scales its squared
norm by `(1/100)²`, i.e. its length by exactly 1%; and with segment-level
`mean = -2, std = 0` (section level at its defaults) every section of the
output has each segment vector equal to exactly `1/100` of the corresponding
input segment vector, for every draw stream — no segment is negated or
collapsed. -/
theorem scaling_minimum_clamp :
    (∀ q : ℚ, q < 1 / 100 → _clip_minimum_scaling q = 1 / 100) ∧
    (∀ v : Vec3, sqNorm ((1 / 100 : ℚ) • v) = (1 / 100 : ℚ) ^ 2 * sqNorm v) ∧
    (∀ (rng : ℕ → ℚ) (m : Forest),
      shrunkKids m (scale_morphology rng segShrinkParameters defaultScaleParameters m) =
        true) := by
  refine ⟨?_, ?_, ?_⟩
  · intro q hq
    rw [_clip_minimum_scaling]
    exact max_eq_right (le_of_lt hq)
  · intro v
    obtain ⟨a, b, c⟩ := v
    simp [sqNorm, vx, vy, vz, Prod.smul_def, smul_eq_mul]
    ring
  · intro rng m
    rw [scale_morphology]
    exact scaleKids_shrunk rng 0 m

unseal Rat.add Rat.mul Rat.sub Rat.inv in
/-- C7, witness: the clamp sends the sampled factor `-2` to exactly `1/100`,
and on the two-section example everything scales segmentwise by `1/100`. -/
theorem scaling_minimum_clamp_witness :
    (-2 : ℚ) < 1 / 100 ∧ _clip_minimum_scaling (-2) = 1 / 100 ∧
    shrunkKids scEx
      (scale_morphology (fun _ => 0) segShrinkParameters defaultScaleParameters scEx) =
      true :=
  ⟨by decide, scaling_minimum_clamp.1 (-2) (by decide),
   scaling_minimum_clamp.2.2 (fun _ => 0) scEx⟩

/-! ## Claim C8 — rotational jitter no-op angles -/

theorem rodrigues_zero_one (u v : Vec3) : rodrigues 0 1 u v = v := by
  rw [rodrigues, one_smul, zero_smul, sub_self, zero_mul, zero_smul, add_zero, add_zero]

theorem rotAbout_id (u origin p : Vec3) : rotAbout 0 1 u origin p = p := by
  rw [rotAbout, rodrigues_zero_one, add_sub_cancel]

mutual

theorem rotTree_noop (trig : ℚ → ℚ × ℚ) (axisOf : ℕ → Vec3) (rng : ℕ → ℚ)
    (P : RotationParameters) (isRoot : Bool) (k : ℕ) (t : STree)
    (hstd : P.std_angle = 0) (htrig : trig P.mean_angle = (0, 1)) :
    (rotTree trig axisOf rng P isRoot k t).1 = t := by
  cases t with
  | node s st pts ds cs =>
    have hcs := rotKids_noop trig axisOf rng P k cs hstd htrig
    cases isRoot with
    | true =>
      rw [rotTree]
      simp only [if_true]
      rw [hcs]
    | false =>
      rw [rotTree]
      simp only [Bool.false_eq_true, if_false, hstd, zero_mul, add_zero, htrig]
      rw [mapPointsTree_id _ (fun p => rotAbout_id (axisOf (rotKids trig axisOf rng P k
        cs).2) (pts.headD 0) p), hcs]

theorem rotKids_noop (trig : ℚ → ℚ × ℚ) (axisOf : ℕ → Vec3) (rng : ℕ → ℚ)
    (P : RotationParameters) (k : ℕ) (l : Forest)
    (hstd : P.std_angle = 0) (htrig : trig P.mean_angle = (0, 1)) :
    (rotKids trig axisOf rng P k l).1 = l := by
  cases l with
  | nil => rfl
  | cons t ts =>
    rw [rotKids]
    simp only
    rw [rotTree_noop trig axisOf rng P false k t hstd htrig,
      rotKids_noop trig axisOf rng P (rotTree trig axisOf rng P false k t).2 ts hstd htrig]

end

theorem rotRoots_noop (trig : ℚ → ℚ × ℚ) (axisOf : ℕ → Vec3) (rng : ℕ → ℚ)
    (P : RotationParameters) (l : Forest)
    (hstd : P.std_angle = 0) (htrig : trig P.mean_angle = (0, 1)) :
    ∀ k, (rotRoots trig axisOf rng P k l).1 = l := by
  induction l with
  | nil => intro k; rfl
  | cons t ts ih =>
    intro k
    rw [rotRoots]
    simp only
    rw [rotTree_noop trig axisOf rng P true k t hstd htrig,
      ih (rotTree trig axisOf rng P true k t).2]

/-- C8: `rotational_jitter` with `std_angle = 0` and `mean_angle` equal to 0
or 360 leaves every point of every morphology unchanged (exactly, in the
rational embedding), for every draw stream and every choice of rotation
axes.  The `trig` hypotheses are the trigonometric facts the embedding
abstracts: `sin 0° = sin 360° = 0` and `cos 0° = cos 360° = 1`, so a
rotation by the sampled angle is the identity rotation. -/
theorem rotational_jitter_noop (trig : ℚ → ℚ × ℚ) (axisOf : ℕ → Vec3)
    (rng : ℕ → ℚ) (P : RotationParameters) (m : Forest)
    (hstd : P.std_angle = 0) (hmean : P.mean_angle = 0 ∨ P.mean_angle = 360)
    (h0 : trig 0 = (0, 1)) (h360 : trig 360 = (0, 1)) :
    rotational_jitter trig axisOf rng P m = m := by
  have htrig : trig P.mean_angle = (0, 1) := by
    cases hmean with
    | inl h => rw [h, h0]
    | inr h => rw [h, h360]
  rw [rotational_jitter]
  exact rotRoots_noop trig axisOf rng P m hstd htrig 0

/-- C8, witness: with `mean_angle = 360`, `std_angle = 0` and a trig oracle
satisfying the two required trigonometric identities, the example morphology
is unchanged. -/
theorem rotational_jitter_noop_witness :
    rotational_jitter (fun _ => ((0 : ℚ), (1 : ℚ))) (fun _ => (1, 0, 0)) (fun _ => 0)
      { mean_angle := 360, std_angle := 0, numberpoint := 5 } scEx = scEx :=
  rotational_jitter_noop (fun _ => ((0 : ℚ), (1 : ℚ))) (fun _ => (1, 0, 0)) (fun _ => 0)
    { mean_angle := 360, std_angle := 0, numberpoint := 5 } scEx rfl (Or.inr rfl) rfl rfl

/-! ## Lemmas for tree continuity (claim C6) -/

theorem mem_nodesTree_self (t : STree) : t ∈ nodesTree t := by
  cases t with
  | node s st pts ds cs =>
    rw [nodesTree]
    exact List.mem_cons_self _ _

theorem mem_nodesForest_of_mem (l : Forest) (t : STree) (ht : t ∈ l) :
    ∀ u ∈ nodesTree t, u ∈ nodesForest l := by
  induction l with
  | nil => cases ht
  | cons x xs ih =>
    intro u hu
    rw [nodesForest, List.mem_append]
    cases List.mem_cons.mp ht with
    | inl h => left; rw [← h]; exact hu
    | inr h => right; exact ih h u hu

mutual

theorem pathsTree_sub (anc : List STree) (t : STree) (p : List STree)
    (hp : p ∈ pathsTree anc t) : ∀ u ∈ p, u ∈ anc ∨ u ∈ nodesTree t := by
  cases t with
  | node s st pts ds cs =>
    rw [pathsTree] at hp
    cases List.mem_cons.mp hp with
    | inl h =>
      intro u hu
      rw [h] at hu
      cases List.mem_append.mp hu with
      | inl h1 => exact Or.inl h1
      | inr h1 =>
        right
        rw [List.mem_singleton] at h1
        rw [h1]
        exact mem_nodesTree_self _
    | inr h =>
      intro u hu
      have := pathsForest_sub _ cs p h u hu
      cases this with
      | inl h1 =>
        cases List.mem_append.mp h1 with
        | inl h2 => exact Or.inl h2
        | inr h2 =>
          right
          rw [List.mem_singleton] at h2
          rw [h2]
          exact mem_nodesTree_self _
      | inr h1 =>
        right
        rw [nodesTree]
        exact List.mem_cons_of_mem _ h1

theorem pathsForest_sub (anc : List STree) (l : Forest) (p : List STree)
    (hp : p ∈ pathsForest anc l) : ∀ u ∈ p, u ∈ anc ∨ u ∈ nodesForest l := by
  cases l with
  | nil => cases hp
  | cons t ts =>
    rw [pathsForest] at hp
    intro u hu
    cases List.mem_append.mp hp with
    | inl h =>
      cases pathsTree_sub anc t p h u hu with
      | inl h1 => exact Or.inl h1
      | inr h1 =>
        right
        rw [nodesForest, List.mem_append]
        exact Or.inl h1
    | inr h =>
      cases pathsForest_sub anc ts p h u hu with
      | inl h1 => exact Or.inl h1
      | inr h1 =>
        right
        rw [nodesForest, List.mem_append]
        exact Or.inr h1

end

theorem foldl_pick_mem (f : α → ℚ) (xs : List α) :
    ∀ b, xs.foldl (fun best y => if f best < f y then y else best) b ∈ b :: xs := by
  induction xs with
  | nil => intro b; exact List.mem_singleton.mpr rfl
  | cons x xs ih =>
    intro b
    rw [List.foldl_cons]
    cases hbx : decide (f b < f x) with
    | true =>
      rw [if_pos (of_decide_eq_true hbx)]
      have := ih x
      cases List.mem_cons.mp this with
      | inl h => rw [h]; exact List.mem_cons_of_mem _ (List.mem_cons_self _ _)
      | inr h => exact List.mem_cons_of_mem _ (List.mem_cons_of_mem _ h)
    | false =>
      rw [if_neg (of_decide_eq_false hbx)]
      have := ih b
      cases List.mem_cons.mp this with
      | inl h => rw [h]; exact List.mem_cons_self _ _
      | inr h => exact List.mem_cons_of_mem _ (List.mem_cons_of_mem _ h)

theorem pickMaxFirst_mem (f : α → ℚ) (l : List α) (x : α)
    (h : pickMaxFirst f l = some x) : x ∈ l := by
  cases l with
  | nil => cases h
  | cons a xs =>
    rw [pickMaxFirst, Option.some_inj] at h
    rw [← h]
    exact foldl_pick_mem f xs a

theorem main_branch_sub (norm3 : Vec3 → ℚ) (a : STree) (x : STree)
    (hx : x ∈ main_branch norm3 a) : x ∈ nodesTree a := by
  rw [main_branch] at hx
  cases hpick : pickMaxFirst (pathLen norm3) (pathsTree [] a) with
  | none => rw [hpick] at hx; cases hx
  | some p =>
    rw [hpick] at hx
    have hp := pickMaxFirst_mem _ _ _ hpick
    cases pathsTree_sub [] a p hp x hx with
    | inl h => cases h
    | inr h => exact h

theorem scanCG_mem (p q : STree → Bool) (l : List STree) :
    ∀ st r, scanCG p q st l = r →
      (r.1 = st.1 ∨ ∃ x ∈ l, r.1 = some x) ∧
      (r.2 = st.2 ∨ ∃ x ∈ l, r.2 = some x) := by
  induction l with
  | nil =>
    intro st r h
    rw [scanCG] at h
    rw [← h]
    exact ⟨Or.inl rfl, Or.inl rfl⟩
  | cons s rest ih =>
    intro st r h
    obtain ⟨st1, st2⟩ := st
    cases st1 with
    | none =>
      have heq : scanCG p q (none, st2) (s :: rest) =
          if p s then scanCG p q (some s, st2) rest
          else scanCG p q (none, st2) rest := rfl
      rw [heq] at h
      cases hps : p s with
      | true =>
        rw [hps] at h
        simp only [if_true] at h
        have := ih (some s, st2) r h
        refine ⟨?_, ?_⟩
        · cases this.1 with
          | inl h1 => exact Or.inr ⟨s, List.mem_cons_self _ _, h1⟩
          | inr h1 =>
            obtain ⟨x, hx, hr⟩ := h1
            exact Or.inr ⟨x, List.mem_cons_of_mem _ hx, hr⟩
        · cases this.2 with
          | inl h1 => exact Or.inl h1
          | inr h1 =>
            obtain ⟨x, hx, hr⟩ := h1
            exact Or.inr ⟨x, List.mem_cons_of_mem _ hx, hr⟩
      | false =>
        rw [hps] at h
        simp only [Bool.false_eq_true, if_false] at h
        have := ih (none, st2) r h
        refine ⟨?_, ?_⟩
        · cases this.1 with
          | inl h1 => exact Or.inl h1
          | inr h1 =>
            obtain ⟨x, hx, hr⟩ := h1
            exact Or.inr ⟨x, List.mem_cons_of_mem _ hx, hr⟩
        · cases this.2 with
          | inl h1 => exact Or.inl h1
          | inr h1 =>
            obtain ⟨x, hx, hr⟩ := h1
            exact Or.inr ⟨x, List.mem_cons_of_mem _ hx, hr⟩
    | some sc1 =>
      cases st2 with
      | none =>
        have heq : scanCG p q (some sc1, none) (s :: rest) =
            if q s then (some sc1, some s)
            else scanCG p q (some sc1, none) rest := rfl
        rw [heq] at h
        cases hqs : q s with
        | true =>
          rw [hqs] at h
          simp only [if_true] at h
          rw [← h]
          exact ⟨Or.inl rfl, Or.inr ⟨s, List.mem_cons_self _ _, rfl⟩⟩
        | false =>
          rw [hqs] at h
          simp only [Bool.false_eq_true, if_false] at h
          have := ih (some sc1, none) r h
          refine ⟨?_, ?_⟩
          · cases this.1 with
            | inl h1 => exact Or.inl h1
            | inr h1 =>
              obtain ⟨x, hx, hr⟩ := h1
              exact Or.inr ⟨x, List.mem_cons_of_mem _ hx, hr⟩
          · cases this.2 with
            | inl h1 => exact Or.inl h1
            | inr h1 =>
              obtain ⟨x, hx, hr⟩ := h1
              exact Or.inr ⟨x, List.mem_cons_of_mem _ hx, hr⟩
      | some sg1 =>
        have heq : scanCG p q (some sc1, some sg1) (s :: rest) =
            (some sc1, some sg1) := rfl
        rw [heq] at h
        rw [← h]
        exact ⟨Or.inl rfl, Or.inl rfl⟩

/-- From a successful section lookup: both returned sections are genuine
sections of the morphology. -/
theorem get_ok_mem (norm3 : Vec3 → ℚ) (m : Forest) (upward : Bool)
    (y_start_cut y_start_graft : ℚ) (sc sg : STree)
    (h : get_start_cut_start_graft_sections norm3 m upward y_start_cut y_start_graft =
      .ok (sc, sg)) : sc ∈ nodesForest m ∧ sg ∈ nodesForest m := by
  cases hax : axonRoots m with
  | nil =>
    rw [get_start_cut_start_graft_sections, hax] at h
    cases h
  | cons a rest =>
    cases rest with
    | cons b r2 =>
      rw [get_start_cut_start_graft_sections, hax] at h
      cases h
    | nil =>
      rcases hscan : scanCG (crossesAt upward y_start_cut)
          (crossesAt upward y_start_graft) (none, none) (main_branch norm3 a)
        with ⟨o1, o2⟩
      rw [get_start_cut_start_graft_sections, hax] at h
      cases o1 with
      | none => simp [hscan] at h
      | some u1 =>
        cases o2 with
        | none => simp [hscan] at h
        | some u2 =>
          simp only [hscan] at h
          rw [Except.ok.injEq, Prod.mk.injEq] at h
          obtain ⟨h1, h2⟩ := h
          have hmem := scanCG_mem _ _ (main_branch norm3 a) (none, none) (some u1, some u2)
            hscan
          have ha_ax : a ∈ axonRoots m := by
            rw [hax]
            exact List.mem_cons_self _ _
          have ha_m : a ∈ m := List.mem_of_mem_filter ha_ax
          have hu1 : u1 ∈ main_branch norm3 a := by
            cases hmem.1 with
            | inl hcon => cases hcon
            | inr hex =>
              obtain ⟨x, hx, hxe⟩ := hex
              rw [Option.some_inj] at hxe
              rw [← hxe] at hx
              exact hx
          have hu2 : u2 ∈ main_branch norm3 a := by
            cases hmem.2 with
            | inl hcon => cases hcon
            | inr hex =>
              obtain ⟨x, hx, hxe⟩ := hex
              rw [Option.some_inj] at hxe
              rw [← hxe] at hx
              exact hx
          constructor
          · rw [← h1]
            exact mem_nodesForest_of_mem m a ha_m u1 (main_branch_sub norm3 a u1 hu1)
          · rw [← h2]
            exact mem_nodesForest_of_mem m a ha_m u2 (main_branch_sub norm3 a u2 hu2)

theorem nodup_sid_unique (m : Forest) (hnd : NodupIds m) (u v : STree)
    (hu : u ∈ nodesForest m) (hv : v ∈ nodesForest m) (he : u.sid = v.sid) :
    u = v :=
  List.inj_on_of_nodup_map hnd hu hv he

mutual

theorem contTree_mem_tree (t u : STree) (hct : contTree t = true)
    (hu : u ∈ nodesTree t) : contTree u = true := by
  cases t with
  | node s st pts ds cs =>
    rw [nodesTree] at hu
    cases List.mem_cons.mp hu with
    | inl h => rw [h]; exact hct
    | inr h =>
      rw [contTree] at hct
      exact contTree_mem_kids (pts.getLast?) cs u hct h

theorem contTree_mem_kids (pl : Option Vec3) (l : Forest) (u : STree)
    (hct : contKids pl l = true) (hu : u ∈ nodesForest l) : contTree u = true := by
  cases l with
  | nil => cases hu
  | cons c cs =>
    rw [contKids, Bool.and_eq_true, Bool.and_eq_true] at hct
    rw [nodesForest] at hu
    cases List.mem_append.mp hu with
    | inl h => exact contTree_mem_tree c u hct.1.2 h
    | inr h => exact contTree_mem_kids pl cs u hct.2 h

end

theorem contForest_mem (m : Forest) (u : STree) (hcf : contForest m = true)
    (hu : u ∈ nodesForest m) : contTree u = true := by
  induction m with
  | nil => cases hu
  | cons t ts ih =>
    rw [contForest, List.all_cons, Bool.and_eq_true] at hcf
    rw [nodesForest] at hu
    cases List.mem_append.mp hu with
    | inl h => exact contTree_mem_tree t u hcf.1 h
    | inr h =>
      apply ih hcf.2
      exact h

mutual

theorem modifyTree_cont (sid : ℕ) (g : STree → STree) (t : STree)
    (hg : ∀ u, u ∈ nodesTree t → u.sid = sid →
      (g u).points.head? = u.points.head? ∧ contTree (g u) = true)
    (hct : contTree t = true) :
    contTree (modifyTree sid g t) = true ∧
      (modifyTree sid g t).points.head? = t.points.head? := by
  cases t with
  | node s st pts ds cs =>
    rw [modifyTree]
    by_cases hs : s = sid
    · rw [if_pos hs]
      have := hg (.node s st pts ds cs) (mem_nodesTree_self _) (by rw [sid_node]; exact hs)
      exact ⟨this.2, this.1⟩
    · rw [if_neg hs]
      constructor
      · rw [contTree] at hct ⊢
        apply modifyForest_contKids sid g (pts.getLast?) cs ?_ hct
        intro u hu hus
        apply hg u ?_ hus
        rw [nodesTree]
        exact List.mem_cons_of_mem _ hu
      · rfl

theorem modifyForest_contKids (sid : ℕ) (g : STree → STree) (pl : Option Vec3)
    (l : Forest)
    (hg : ∀ u, u ∈ nodesForest l → u.sid = sid →
      (g u).points.head? = u.points.head? ∧ contTree (g u) = true)
    (hct : contKids pl l = true) : contKids pl (modifyForest sid g l) = true := by
  cases l with
  | nil => rfl
  | cons c cs =>
    rw [contKids, Bool.and_eq_true, Bool.and_eq_true] at hct
    have hgc : ∀ u, u ∈ nodesTree c → u.sid = sid →
        (g u).points.head? = u.points.head? ∧ contTree (g u) = true := by
      intro u hu hus
      apply hg u ?_ hus
      rw [nodesForest]
      exact List.mem_append.mpr (Or.inl hu)
    have hgcs : ∀ u, u ∈ nodesForest cs → u.sid = sid →
        (g u).points.head? = u.points.head? ∧ contTree (g u) = true := by
      intro u hu hus
      apply hg u ?_ hus
      rw [nodesForest]
      exact List.mem_append.mpr (Or.inr hu)
    have hc := modifyTree_cont sid g c hgc hct.1.2
    rw [modifyForest, contKids, Bool.and_eq_true, Bool.and_eq_true]
    refine ⟨⟨?_, hc.1⟩, modifyForest_contKids sid g pl cs hgcs hct.2⟩
    rw [hc.2]
    exact hct.1.1

end

theorem modifyForest_contForest (sid : ℕ) (g : STree → STree) (m : Forest)
    (hg : ∀ u, u ∈ nodesForest m → u.sid = sid →
      (g u).points.head? = u.points.head? ∧ contTree (g u) = true)
    (hcf : contForest m = true) : contForest (modifyForest sid g m) = true := by
  induction m with
  | nil => rfl
  | cons t ts ih =>
    rw [contForest, List.all_cons, Bool.and_eq_true] at hcf
    have hgt : ∀ u, u ∈ nodesTree t → u.sid = sid →
        (g u).points.head? = u.points.head? ∧ contTree (g u) = true := by
      intro u hu hus
      apply hg u ?_ hus
      rw [nodesForest]
      exact List.mem_append.mpr (Or.inl hu)
    have hgts : ∀ u, u ∈ nodesForest ts → u.sid = sid →
        (g u).points.head? = u.points.head? ∧ contTree (g u) = true := by
      intro u hu hus
      apply hg u ?_ hus
      rw [nodesForest]
      exact List.mem_append.mpr (Or.inr hu)
    rw [modifyForest, contForest, List.all_cons, Bool.and_eq_true]
    exact ⟨(modifyTree_cont sid g t hgt hcf.1).1, ih hgts hcf.2⟩

theorem broadcast_cons (f : ℚ) (fs : List ℚ) (axis : Option (Fin 3)) :
    ∃ b0, _broadcast (f :: fs) axis = b0 :: _broadcast fs axis := by
  cases axis with
  | none => exact ⟨_, rfl⟩
  | some ax => exact ⟨_, rfl⟩

theorem scaleAxis_zero (ax : Fin 3) (g : ℚ) : scaleAxis ax g 0 = 0 := by
  rw [scaleAxis]
  show ((if ax = 0 then g * 0 else 0, if ax = 1 then g * 0 else 0,
    if ax = 2 then g * 0 else 0) : Vec3) = 0
  rw [mul_zero, ite_self, ite_self, ite_self]
  rfl

theorem scaled_cons_zero (rng : ℕ → ℚ) (segP : ScaleParameters) (k1 : ℕ)
    (pts : List Vec3) :
    ∃ rest, List.zipWith hadamard
      (_broadcast ((List.range (_segment_vectors pts true).length).map
        (fun i => _clip_minimum_scaling (segP.mean + segP.std * rng (k1 + i))))
        segP.axis)
      (_segment_vectors pts true) = (0 : Vec3) :: rest := by
  rw [segment_vectors_true, List.length_cons, List.range_succ_eq_map, List.map_cons]
  obtain ⟨b0, hb⟩ := broadcast_cons _ _ segP.axis
  rw [hb, List.zipWith_cons_cons, hadamard_zero_right]
  exact ⟨_, rfl⟩

theorem cum2_cons_zero (axis : Option (Fin 3)) (g : ℚ) (l : List Vec3) :
    ∃ tail, (match axis with
      | none => (cumsumAux 0 ((0 : Vec3) :: l)).map (fun v => g • v)
      | some ax => (cumsumAux 0 ((0 : Vec3) :: l)).map (scaleAxis ax g)) =
      (0 : Vec3) :: tail := by
  cases axis with
  | none =>
    show ∃ tail, (cumsumAux 0 ((0 : Vec3) :: l)).map (fun v => g • v) = (0 : Vec3) :: tail
    rw [cumsumAux, add_zero, List.map_cons, smul_zero]
    exact ⟨_, rfl⟩
  | some ax =>
    show ∃ tail, (cumsumAux 0 ((0 : Vec3) :: l)).map (scaleAxis ax g) = (0 : Vec3) :: tail
    rw [cumsumAux, add_zero, List.map_cons, scaleAxis_zero]
    exact ⟨_, rfl⟩

theorem contKids_shift (oldL newL : Vec3) (l : Forest)
    (h : contKids (some oldL) l = true) :
    contKids (some newL) (translateForest (newL - oldL) l) = true := by
  have h2 := contKids_mapPoints (fun p => p + (newL - oldL)) (some oldL) l h
  rw [Option.map_some'] at h2
  rw [show oldL + (newL - oldL) = newL from by abel] at h2
  exact h2

mutual

theorem scaleTree_cont (rng : ℕ → ℚ) (segP secP : ScaleParameters) (k : ℕ)
    (t : STree) (hne : nonemptyPtsTree t = true) (hct : contTree t = true) :
    contTree ((scaleTree rng segP secP k t).1) = true ∧
      ((scaleTree rng segP secP k t).1).points.head? = t.points.head? := by
  cases t with
  | node s st pts ds cs =>
    rw [nonemptyPtsTree, Bool.and_eq_true] at hne
    obtain ⟨hp, hcsne⟩ := hne
    rw [contTree] at hct
    have hkids := scaleKids_cont rng segP secP k (pts.getLast?) cs hcsne hct
    cases pts with
    | nil => simp at hp
    | cons p0 rest =>
      simp only [scaleTree]
      obtain ⟨srest, hs⟩ := scaled_cons_zero rng segP
        (scaleKids rng segP secP k cs).2 (p0 :: rest)
      rw [hs]
      obtain ⟨tail, hcum⟩ := cum2_cons_zero secP.axis
        (_clip_minimum_scaling (secP.mean + secP.std * rng
          ((scaleKids rng segP secP k cs).2 +
            (_segment_vectors (p0 :: rest) true).length))) srest
      rw [hcum, List.map_cons, add_zero]
      constructor
      · rw [contTree]
        have hlast : ((p0 :: rest) : List Vec3).getLast? =
            some (((p0 :: rest) : List Vec3).getLastD 0) :=
          getLast?_eq_getLastD _ 0 (by simp)
        rw [hlast] at hkids
        have hnew : (((p0 :: rest).headD 0 :: tail.map
            (fun v => (p0 :: rest).headD 0 + v)) : List Vec3).getLast? =
            some ((((p0 :: rest).headD 0 :: tail.map
              (fun v => (p0 :: rest).headD 0 + v)) : List Vec3).getLastD 0) :=
          getLast?_eq_getLastD _ 0 (by simp)
        rw [hnew]
        exact contKids_shift _ _ _ hkids
      · rfl

theorem scaleKids_cont (rng : ℕ → ℚ) (segP secP : ScaleParameters) (k : ℕ)
    (pl : Option Vec3) (l : Forest) (hne : nonemptyPtsForest l = true)
    (hct : contKids pl l = true) :
    contKids pl ((scaleKids rng segP secP k l).1) = true := by
  cases l with
  | nil => rfl
  | cons c cs =>
    rw [nonemptyPtsForest, Bool.and_eq_true] at hne
    rw [contKids, Bool.and_eq_true, Bool.and_eq_true] at hct
    have hc := scaleTree_cont rng segP secP k c hne.1 hct.1.2
    rw [scaleKids]
    rw [contKids, Bool.and_eq_true, Bool.and_eq_true]
    refine ⟨⟨?_, hc.1⟩, scaleKids_cont rng segP secP _ pl cs hne.2 hct.2⟩
    rw [hc.2]
    exact hct.1.1

end

theorem scaleKids_contForest (rng : ℕ → ℚ) (segP secP : ScaleParameters)
    (m : Forest) (hne : nonemptyPtsForest m = true) (hcf : contForest m = true) :
    ∀ k, contForest ((scaleKids rng segP secP k m).1) = true := by
  induction m with
  | nil => intro k; rfl
  | cons t ts ih =>
    intro k
    rw [nonemptyPtsForest, Bool.and_eq_true] at hne
    rw [contForest, List.all_cons, Bool.and_eq_true] at hcf
    rw [scaleKids]
    rw [contForest, List.all_cons, Bool.and_eq_true]
    exact ⟨(scaleTree_cont rng segP secP k t hne.1 hcf.1).1,
      ih hne.2 hcf.2 (scaleTree rng segP secP k t).2⟩

/-! ## Claim C6 — tree continuity is an invariant of both engines -/

/-- C6: tree continuity (every non-root section's first point equals its
parent's last point) is an invariant of both engines: every morphology
returned by `cut_and_graft` satisfies it (given a well-formed input:
continuous, with unique section ids), and `scale_morphology` preserves it
for arbitrary scaling parameters (given nonempty point lists). -/
theorem tree_continuity_invariant :
    (∀ (norm3 : Vec3 → ℚ) (m : Forest) (upward : Bool)
      (y_start_cut y_start_graft height : ℚ) (new : Forest) (d : ℚ),
      NodupIds m → contForest m = true →
      cut_and_graft norm3 m upward y_start_cut y_start_graft height = .ok (new, d) →
      contForest new = true) ∧
    (∀ (rng : ℕ → ℚ) (segP secP : ScaleParameters) (m : Forest),
      nonemptyPtsForest m = true → contForest m = true →
      contForest (scale_morphology rng segP secP m) = true) := by
  constructor
  · intro norm3 m upward yc yg height new d hnd hcf hok
    rw [cut_and_graft] at hok
    cases hfull : cut_and_graft_full norm3 m upward yc yg height with
    | error e => rw [hfull] at hok; cases hok
    | ok r =>
      rw [hfull] at hok
      obtain ⟨newF, origF, dy⟩ := r
      have hok2 : (Except.ok (newF, dy) : Except PyError (Forest × ℚ)) =
          .ok (new, d) := hok
      rw [Except.ok.injEq, Prod.mk.injEq] at hok2
      obtain ⟨hnewF0, -⟩ := hok2
      subst hnewF0
      rw [cut_and_graft_full] at hfull
      rcases hget : get_start_cut_start_graft_sections norm3 m upward yc yg
        with e | ⟨sc, sg⟩
      · simp [hget] at hfull
      rcases hcut1 : cut_section_at_plane_coord sc.points sc.diameters yc upward false
        with - | ⟨scPts, scDs⟩
      · simp [hget, hcut1] at hfull
      rcases hcut2 : cut_section_at_plane_coord sg.points sg.diameters yg upward true
        with - | ⟨sgPts, sgDs⟩
      · simp [hget, hcut1, hcut2] at hfull
      simp only [hget, hcut1, hcut2, Except.ok.injEq, Prod.mk.injEq] at hfull
      obtain ⟨hnewF, -, -⟩ := hfull
      rw [← hnewF]
      have hmem := get_ok_mem norm3 m upward yc yg sc sg hget
      have hscne : scPts ≠ [] :=
        cut_some_ne_nil sc.points sc.diameters yc upward false (scPts, scDs) hcut1
      have hsgne : sgPts ≠ [] :=
        cut_some_ne_nil sg.points sg.diameters yg upward true (sgPts, sgDs) hcut2
      apply modifyForest_contForest _ _ m ?_ hcf
      intro u hu hus
      have hueq : sc = u := (nodup_sid_unique m hnd u sc hu hmem.1 hus).symm
      subst hueq
      constructor
      · simp only [points_node]
        exact cut_false_head sc.points sc.diameters yc upward (scPts, scDs) hcut1
      · rw [contTree, getLast?_eq_getLastD scPts 0 hscne]
        rw [contKids, contKids, Bool.and_eq_true, Bool.and_eq_true]
        refine ⟨⟨?_, ?_⟩, rfl⟩
        · simp
        · rw [contTree]
          have h2 : ([scPts.getLastD 0, scPts.getLastD 0 + ((0 : ℚ), height, (0 : ℚ))]
              : List Vec3).getLast? = some (scPts.getLastD 0 + (0, height, 0)) := rfl
          rw [h2, contKids, contKids, Bool.and_eq_true, Bool.and_eq_true]
          refine ⟨⟨?_, ?_⟩, rfl⟩
          · rw [translateTree, mapPointsTree_points, points_node, List.head?_map,
              head?_eq_headD sgPts 0 hsgne, Option.map_some']
            rw [decide_eq_true_eq, Option.some_inj]
            abel
          · rw [translateTree]
            apply contTree_mapPoints
            rw [contTree]
            rw [cut_true_last sg.points sg.diameters yg upward (sgPts, sgDs) hcut2]
            have hsgct := contForest_mem m sg hcf hmem.2
            cases sg with
            | node sgs sgst sgp sgd sgc =>
              rw [contTree] at hsgct
              simp only [points_node, children_node]
              exact hsgct
  · intro rng segP secP m hne hcf
    rw [scale_morphology]
    exact scaleKids_contForest rng segP secP m hne hcf 0

unseal Rat.add Rat.mul Rat.sub Rat.inv in
/-- C6, witness: the worked cut-and-graft output and a scaled example both
satisfy tree continuity. -/
theorem tree_continuity_invariant_witness :
    contForest newAfterEx = true ∧
    contForest (scale_morphology (fun _ => 0) segShrinkParameters
      defaultScaleParameters scEx) = true := by
  constructor
  · exact tree_continuity_invariant.1 sqNorm mEx true (3/2) (23/5) 103 newAfterEx
      (999/10) (show (allIds mEx).Nodup by decide) (by decide) (by rfl)
  · exact tree_continuity_invariant.2 (fun _ => 0) segShrinkParameters
      defaultScaleParameters scEx (by decide) (by decide)

/-! ## Claim C2 — mutation of the `original` morphology -/

mutual

theorem sameOutsideTree_modify (sid : ℕ) (g : STree → STree) (t : STree) :
    sameOutsideTree sid t (modifyTree sid g t) = true := by
  cases t with
  | node s st pts ds cs =>
    rw [modifyTree]
    by_cases hs : s = sid
    · rw [if_pos hs]
      cases hgt : g (.node s st pts ds cs) with
      | node g1 g2 g3 g4 g5 =>
        rw [sameOutsideTree, if_pos hs]
    · rw [if_neg hs, sameOutsideTree, if_neg hs]
      simp [sameOutsideKids_modify sid g cs]

theorem sameOutsideKids_modify (sid : ℕ) (g : STree → STree) (l : Forest) :
    sameOutsideKids sid l (modifyForest sid g l) = true := by
  cases l with
  | nil => rfl
  | cons t ts =>
    rw [modifyForest, sameOutsideKids, Bool.and_eq_true]
    exact ⟨sameOutsideTree_modify sid g t, sameOutsideKids_modify sid g ts⟩

end

unseal Rat.add Rat.mul Rat.sub Rat.inv in
/-- C2, counterexample: on the worked example, after `cut_and_graft` the
`original` morphology is **not** pristine — the section with id 1 (the
start_graft section) had points `[[0,2,0],[0,4,0],[0,5,0]]` when loaded, but
in the post-run original its points are `[[0,104.5,0],[0,104.9,0]]` (trimmed
at the graft plane and translated). -/
theorem cut_and_graft_mutates_original :
    (originalAfterGraft sqNorm mEx true (3/2) (23/5) 103).map
      (fun o => (findSection o 1).map STree.points) =
      some (some [(0, 209/2, 0), (0, 1049/10, 0)]) ∧
    (findSection mEx 1).map STree.points = some [(0, 2, 0), (0, 4, 0), (0, 5, 0)] ∧
    ([(0, 209/2, 0), (0, 1049/10, 0)] : List Vec3) ≠
      [(0, 2, 0), (0, 4, 0), (0, 5, 0)] := by
  decide

/-- C2, amended: during `cut_and_graft` the `original` morphology is mutated
exactly at the start_graft subtree (`graft_branch` trims the start_graft
section at the graft plane and translates the subtree, in the original);
every section outside the subtrees rooted at the start_graft id keeps its
id, type, points and diameters unchanged — while the returned new neuron is
built separately. -/
theorem cut_and_graft_original_outside_pristine (norm3 : Vec3 → ℚ) (m : Forest)
    (upward : Bool) (y_start_cut y_start_graft height : ℚ) (sc sg : STree)
    (new orig : Forest) (d : ℚ)
    (hget : get_start_cut_start_graft_sections norm3 m upward y_start_cut
      y_start_graft = .ok (sc, sg))
    (hfull : cut_and_graft_full norm3 m upward y_start_cut y_start_graft height =
      .ok (new, orig, d)) :
    sameOutsideKids sg.sid m orig = true := by
  rw [cut_and_graft_full] at hfull
  rcases hcut1 : cut_section_at_plane_coord sc.points sc.diameters y_start_cut
      upward false with - | ⟨scPts, scDs⟩
  · simp [hget, hcut1] at hfull
  rcases hcut2 : cut_section_at_plane_coord sg.points sg.diameters y_start_graft
      upward true with - | ⟨sgPts, sgDs⟩
  · simp [hget, hcut1, hcut2] at hfull
  simp only [hget, hcut1, hcut2, Except.ok.injEq, Prod.mk.injEq] at hfull
  obtain ⟨-, horig, -⟩ := hfull
  rw [← horig]
  exact sameOutsideKids_modify sg.sid _ m

unseal Rat.add Rat.mul Rat.sub Rat.inv in
/-- C2 (amended), witness: on the worked example the post-run original
agrees with the loaded morphology outside the start_graft subtree. -/
theorem cut_and_graft_original_outside_pristine_witness :
    sameOutsideKids 1 mEx origAfterEx = true := by
  have hget : get_start_cut_start_graft_sections sqNorm mEx true (3/2) (23/5) =
      .ok (sec0Ex, sec1Ex) := by rfl
  have hfull : cut_and_graft_full sqNorm mEx true (3/2) (23/5) 103 =
      .ok (newAfterEx, origAfterEx, 999/10) := by rfl
  have h := cut_and_graft_original_outside_pristine sqNorm mEx true (3/2) (23/5) 103
    sec0Ex sec1Ex newAfterEx origAfterEx (999/10) hget hfull
  exact h

/-! ## Claim C1 — the batch boundary of `run` -/

unseal Rat.add Rat.mul Rat.sub Rat.inv in
/-- C1, counterexample: a batch containing one morphology with two axon root
sections makes `run` propagate `TooManyAxons` and abort — the exception is
not caught at the batch boundary, no failure summary is produced, and later
files would not be processed. -/
theorem run_does_not_catch_tooManyAxons :
    run sqNorm [("two_axons", twoAxonsEx, rulesEx)] 0 [1] =
      .error .tooManyAxons := by
  rfl

/-- C1, amended: the batch boundary of `run` catches `NoSectionToCut`,
`NoAxon` and the no-axon-annotation exception — for a batch whose items all
succeed or fail with one of those three, `run` completes and returns exactly
the (filename, message) summary of the failing items, in order — but
`TooManyAxons` (absent from the `except` clause) is not caught: the first
item that raises it aborts the whole batch with that exception. -/
theorem run_batch_boundary_amended (norm3 : Vec3 → ℚ) (n_steps : ℕ)
    (heights : List ℚ) :
    (∀ files : List (String × Forest × PlacementRules),
      (∀ fmr ∈ files,
        okOrCaught (shrink_all_heights norm3 fmr.2.1 fmr.2.2 heights n_steps) = true) →
      run norm3 files n_steps heights = .ok (files.filterMap (fun fmr =>
        match shrink_all_heights norm3 fmr.2.1 fmr.2.2 heights n_steps with
        | .error e => some (fmr.1, errMessage e)
        | .ok _ => none))) ∧
    (∀ (pre post : List (String × Forest × PlacementRules)) (f : String)
      (m : Forest) (rules : PlacementRules) (e : PyError),
      (∀ fmr ∈ pre,
        okOrCaught (shrink_all_heights norm3 fmr.2.1 fmr.2.2 heights n_steps) = true) →
      shrink_all_heights norm3 m rules heights n_steps = .error e →
      caught_at_batch e = false →
      run norm3 (pre ++ (f, m, rules) :: post) n_steps heights = .error e) := by
  constructor
  · intro files hok
    induction files with
    | nil => rfl
    | cons fmr rest ih =>
      obtain ⟨f, mm, r⟩ := fmr
      have hhead := hok (f, mm, r) (List.mem_cons_self _ _)
      have hrest := fun x hx => hok x (List.mem_cons_of_mem _ hx)
      simp only at hhead
      rw [run, List.filterMap_cons]
      cases hr : shrink_all_heights norm3 mm r heights n_steps with
      | ok v =>
        simp only [hr]
        exact ih hrest
      | error e =>
        rw [hr, okOrCaught] at hhead
        simp only [hr, hhead, if_true]
        rw [ih hrest]
  · intro pre post f m rules e hpre hshr hcaught
    induction pre with
    | nil =>
      rw [List.nil_append, run]
      simp only [hshr, hcaught, Bool.false_eq_true, if_false]
    | cons fmr rest ih =>
      obtain ⟨f', m', r'⟩ := fmr
      have hhead := hpre (f', m', r') (List.mem_cons_self _ _)
      have hrest := fun x hx => hpre x (List.mem_cons_of_mem _ hx)
      simp only at hhead
      rw [List.cons_append, run]
      cases hr : shrink_all_heights norm3 m' r' heights n_steps with
      | ok v =>
        simp only [hr]
        exact ih hrest
      | error e' =>
        rw [hr, okOrCaught] at hhead
        simp only [hr, hhead, if_true]
        rw [ih hrest]

unseal Rat.add Rat.mul Rat.sub Rat.inv in
/-- C1 (amended), witness: a batch whose single item has no axon completes
with the failure recorded as `(filename, "Neuron has no axon")`. -/
theorem run_batch_boundary_amended_witness :
    run sqNorm [("no_axon", mNoAxonEx, rulesEx)] 0 [1] =
      .ok [("no_axon", "Neuron has no axon")] := by
  have h := (run_batch_boundary_amended sqNorm 0 [1]).1
    [("no_axon", mNoAxonEx, rulesEx)] (by decide)
  exact h
